import Mathlib

set_option maxHeartbeats 1000000

/-!
Formal model of the FinAlloc allocator library (C++ sources under
`src/src/allocators` and `src/include/allocators`), together with proofs
about the properties its specification states.

Modeling conventions:
* the platform is LP64: `sizeof(void*) = 8`, `alignof(std::max_align_t) = 16`,
  `size_t`/`uintptr_t` are 64 bits wide;
* addresses and sizes are `Nat`, reduced `% 2 ^ 64` where C++ wraps;
* a null pointer is the address 0 (`std::malloc` never returns address 0 for
  the regions modeled here, so 0 is free to encode `nullptr`);
* fallible operations return `Option`; a `none` at the outer level models a
  fatal `std::abort` path, and a `some (none, ·)` models returning `nullptr`;
* atomic counters are modeled as plain `Nat` fields: all pool theorems below
  are about the single-threaded interleaving, in which every
  `compare_exchange_weak` succeeds on its first attempt;
* the `on_alloc`/`on_free` callbacks and the occupancy histogram observe raw
  bytes only and alter no allocator state; they are not modeled. The arena's
  journal ring buffer is write-only metadata and is likewise not modeled.
-/

/-- Size in bytes of a pointer, `sizeof(void*)`, on the modeled platform. -/
def ptrBytes : Nat := 8

/-- Maximum scalar alignment, `alignof(std::max_align_t)`, on the modeled platform. -/
def maxAlignBytes : Nat := 16

/-- Helper `align_up` from the anonymous namespace of `arenaAllocator.cpp`
(lines 25-29): `(p + mask) & ~mask` with `mask = a - 1`, in 64-bit
`uintptr_t` arithmetic; the complement `~mask` is `(2^64 - 1) - (a - 1)`. -/
def align_up (p a : Nat) : Nat :=
  ((p + (a - 1)) % 2 ^ 64) &&& ((2 ^ 64 - 1) - (a - 1))

/-- Helper `next_pow2` from the anonymous namespace of `arenaAllocator.cpp`
(lines 10-24), on 64-bit `size_t`. -/
def next_pow2 (x : Nat) : Nat :=
  if x ≤ 1 then 1
  else
    let y := x - 1
    let y := y ||| (y >>> 1)
    let y := y ||| (y >>> 2)
    let y := y ||| (y >>> 4)
    let y := y ||| (y >>> 8)
    let y := y ||| (y >>> 16)
    let y := y ||| (y >>> 32)
    (y + 1) % 2 ^ 64

/-- Member `PoolAllocator::alignUp` (`poolAllocator.cpp` lines 112-114):
`(n + alignment - 1) & ~(alignment - 1)` on 64-bit `size_t`. -/
def PoolAllocator.alignUp (n alignment : Nat) : Nat :=
  ((n + alignment - 1) % 2 ^ 64) &&& ((2 ^ 64 - 1) - (alignment - 1))

/-- `PoolOptions` from `include/allocators/poolConfig.hpp`. The raw-byte
hooks `on_alloc`/`on_free` are not modeled (they do not alter allocator
state), and the histogram knobs are carried only for completeness. -/
structure PoolOptions where
  zero_on_alloc : Bool := false
  poison_on_free : Bool := false
  verify_poison_on_alloc : Bool := false
  poison_byte : Nat := 0xA5
  quarantine_size : Nat := 0
  sample_histograms : Bool := false
  histogram_buckets : Nat := 64

/-- Preset `PoolOptions::DebugStrong` from `poolConfig.hpp` (lines 26-34). -/
def PoolOptions.DebugStrong (quarantine : Nat) : PoolOptions :=
  { zero_on_alloc := true
    poison_on_free := true
    verify_poison_on_alloc := true
    quarantine_size := quarantine
    sample_histograms := true }

/-- Preset `PoolOptions::MinimalOverhead` from `poolConfig.hpp` (lines 35-39). -/
def PoolOptions.MinimalOverhead : PoolOptions := {}

/-- Address of cell `i` in a pool whose backing region starts at `base` with
cell stride `sz` (the constructor lays the cells out contiguously). -/
def cellAddr (base sz i : Nat) : Nat := base + i * sz

/-- Addresses of all `cap` cells in layout order. -/
def cells (base sz cap : Nat) : List Nat := (List.range cap).map (cellAddr base sz)

/-- Net effect of the constructor's free-list threading loop
(`poolAllocator.cpp` lines 16-24) on the first word of each cell, for
`capacity ≥ 1`: cell `i` holds the address of cell `i+1`, the last cell holds
null. Cells with index `≥ capacity` are never written by the loop; the model
maps them to 0 (their real content is unspecified garbage, and no operation
of a correctly used pool ever reads them as links). -/
def ctorLink (base sz capacity : Nat) : Nat → Nat := fun i =>
  if i + 1 < capacity then cellAddr base sz (i + 1) else 0

/-- Loop bound `poolCapacity - 1` of the threading loop, computed in unsigned
`size_t` arithmetic: for `capacity = 0` it wraps around to `2^64 - 1`. -/
def ctorLoopBound (capacity : Nat) : Nat :=
  if capacity = 0 then 2 ^ 64 - 1 else capacity - 1

/-- Addresses at which the constructor writes a link: the loop writes at cell
`i` for every `i < ctorLoopBound capacity`, and the final null-link write
lands at cell `ctorLoopBound capacity`. Each write stores 8 bytes. -/
def ctorWriteAddr (base sz i : Nat) : Nat := base + i * sz

/-- State of a `PoolAllocator` (fields of the C++ class, `poolAllocator.hpp`
lines 66-98). `link i` models the first `ptrBytes` bytes of cell `i`
interpreted as the stored next pointer (0 encodes null); `tailPoison i`
models the predicate "bytes `[ptrBytes, alignedObjSize)` of cell `i` all
equal `poison_byte`". -/
structure PoolState where
  memoryBlock : Nat
  alignedObjSize : Nat
  poolCapacity : Nat
  link : Nat → Nat
  tailPoison : Nat → Bool
  nonAtomicFreeListHead : Nat
  quarantine : List Nat
  usedCount : Nat
  alloc_calls : Nat
  free_calls : Nat
  alloc_failures : Nat
  cas_failures : Nat
  high_watermark : Nat
  in_use : Nat
  options_ : PoolOptions

/-- `PoolAllocator` constructor (`poolAllocator.cpp` lines 5-52) for
`capacity ≥ 1`. `base` stands for the address returned by `std::malloc`
(nonzero, since a null return throws `bad_alloc`). Pre-poisoning fills every
cell's tail with `poison_byte` when `poison_on_free` is set; otherwise the
tails hold unspecified garbage, modeled as not-poisoned. -/
def poolInit (objectSize capacity : Nat) (options : PoolOptions) (base : Nat) : PoolState :=
  let objectSize := if objectSize < ptrBytes then ptrBytes else objectSize
  let sz := PoolAllocator.alignUp objectSize maxAlignBytes
  { memoryBlock := base
    alignedObjSize := sz
    poolCapacity := capacity
    link := ctorLink base sz capacity
    tailPoison := fun _ => options.poison_on_free
    nonAtomicFreeListHead := base
    quarantine := []
    usedCount := 0
    alloc_calls := 0
    free_calls := 0
    alloc_failures := 0
    cas_failures := 0
    high_watermark := 0
    in_use := 0
    options_ := options }

/-- Cell index of pointer `p`, the `(ptr - memoryBlock) / alignedObjSize`
computation used by both pool variants. -/
def PoolState.indexOf (st : PoolState) (p : Nat) : Nat :=
  (p - st.memoryBlock) / st.alignedObjSize

/-- `PoolAllocator::allocate` (`poolAllocator.cpp` lines 63-91). An outer
`none` models the fatal poison-verification abort; `some (none, st)` models
returning `nullptr`. -/
def PoolAllocator.allocate (st : PoolState) : Option (Option Nat × PoolState) :=
  let st := { st with alloc_calls := st.alloc_calls + 1 }
  if st.nonAtomicFreeListHead = 0 then
    some (none, { st with alloc_failures := st.alloc_failures + 1 })
  else
    let allocated := st.nonAtomicFreeListHead
    let idx := st.indexOf allocated
    let st := { st with nonAtomicFreeListHead := st.link idx, usedCount := st.usedCount + 1 }
    let in_use_now := st.in_use + 1
    let st := { st with in_use := in_use_now,
                        high_watermark := max st.high_watermark in_use_now }
    if st.options_.verify_poison_on_alloc ∧ st.options_.poison_on_free
        ∧ ptrBytes < st.alignedObjSize ∧ st.tailPoison idx = false then
      none
    else
      let st :=
        if st.options_.zero_on_alloc then
          { st with link := Function.update st.link idx 0,
                    tailPoison := Function.update st.tailPoison idx
                      (decide (st.options_.poison_byte = 0)) }
        else st
      some (some allocated, st)

/-- `PoolAllocator::applyPoison_` (`poolAllocator.cpp` lines 116-121). -/
def PoolAllocator.applyPoison_ (st : PoolState) (p : Nat) : PoolState :=
  if ptrBytes < st.alignedObjSize then
    { st with tailPoison := Function.update st.tailPoison (st.indexOf p) true }
  else st

/-- `PoolAllocator::freeListPush_` (`poolAllocator.cpp` lines 151-154). -/
def PoolAllocator.freeListPush_ (st : PoolState) (p : Nat) : PoolState :=
  { st with link := Function.update st.link (st.indexOf p) st.nonAtomicFreeListHead,
            nonAtomicFreeListHead := p }

/-- `PoolAllocator::quarantinePush_` (`poolAllocator.cpp` lines 142-149). -/
def PoolAllocator.quarantinePush_ (st : PoolState) (p : Nat) : PoolState :=
  let st := { st with quarantine := st.quarantine ++ [p] }
  if st.options_.quarantine_size < st.quarantine.length then
    match st.quarantine with
    | [] => st
    | victim :: rest => PoolAllocator.freeListPush_ { st with quarantine := rest } victim
  else st

/-- `PoolAllocator::deallocate` (`poolAllocator.cpp` lines 93-110). -/
def PoolAllocator.deallocate (st : PoolState) (p : Nat) : PoolState :=
  if p = 0 then st
  else
    let st := if st.options_.poison_on_free then PoolAllocator.applyPoison_ st p else st
    let st := if 0 < st.options_.quarantine_size then PoolAllocator.quarantinePush_ st p
              else PoolAllocator.freeListPush_ st p
    { st with usedCount := st.usedCount - 1,
              free_calls := st.free_calls + 1,
              in_use := st.in_use - 1 }

/-- `PoolStats` from `poolAllocator.hpp` lines 18-29. -/
structure PoolStats where
  capacity : Nat
  object_size : Nat
  aligned_object_size : Nat
  alloc_calls : Nat
  free_calls : Nat
  alloc_failures : Nat
  cas_failures : Nat
  high_watermark : Nat
  in_use : Nat

/-- `PoolAllocator::getStats` (`poolAllocator.cpp` lines 156-168). -/
def PoolAllocator.getStats (st : PoolState) : PoolStats :=
  { capacity := st.poolCapacity
    object_size := st.alignedObjSize
    aligned_object_size := st.alignedObjSize
    alloc_calls := st.alloc_calls
    free_calls := st.free_calls
    alloc_failures := st.alloc_failures
    cas_failures := st.cas_failures
    high_watermark := st.high_watermark
    in_use := st.in_use }

/-- State of a `LockFreePoolAllocator` (`poolAllocator.hpp` lines 101-139):
the inherited `PoolAllocator` fields plus the atomic head, the side array
`next_` of out-of-line links (indexed by cell index, 0 encodes null), and the
mutex-protected `lfQuarantine_`. -/
structure LFState where
  pool : PoolState
  freeListHead : Nat
  next_ : Nat → Nat
  lfQuarantine : List Nat

/-- `LockFreePoolAllocator` constructor (`poolAllocator.cpp` lines 171-187):
runs the base constructor, initializes the atomic head from the base head and
threads the side array `next_[i] = base + (i+1) * alignedObjSize` for
`i + 1 < capacity`, null for the last cell — the same function as `ctorLink`. -/
def lfInit (objectSize capacity : Nat) (options : PoolOptions) (base : Nat) : LFState :=
  let p := poolInit objectSize capacity options base
  { pool := p
    freeListHead := p.nonAtomicFreeListHead
    next_ := ctorLink base p.alignedObjSize capacity
    lfQuarantine := [] }

/-- `LockFreePoolAllocator::inRange_` (`poolAllocator.hpp` lines 123-129). -/
def LFState.inRange_ (lf : LFState) (p : Nat) : Prop :=
  lf.pool.memoryBlock ≤ p
    ∧ p < lf.pool.memoryBlock + lf.pool.alignedObjSize * lf.pool.poolCapacity
    ∧ (p - lf.pool.memoryBlock) % lf.pool.alignedObjSize = 0

instance (lf : LFState) (p : Nat) : Decidable (lf.inRange_ p) := by
  unfold LFState.inRange_; infer_instance

/-- `LockFreePoolAllocator::allocate` (`poolAllocator.cpp` lines 193-233) in
the single-threaded interleaving: the CAS succeeds on its first attempt, so
`cas_failures` stays untouched. An outer `none` models the two fatal paths
(invalid head pointer, poison verification failure). -/
def LockFreePoolAllocator.allocate (lf : LFState) : Option (Option Nat × LFState) :=
  let lfA := { lf with pool := { lf.pool with alloc_calls := lf.pool.alloc_calls + 1 } }
  let head := lfA.freeListHead
  if head = 0 then
    some (none, { lfA with pool := { lfA.pool with alloc_failures := lfA.pool.alloc_failures + 1 } })
  else if ¬ lf.inRange_ head then none
  else
    let idx := lfA.pool.indexOf head
    let nxt := lfA.next_ idx
    let lfB := { lfA with freeListHead := nxt,
                          pool := { lfA.pool with usedCount := lfA.pool.usedCount + 1 } }
    let in_use_now := lfB.pool.in_use + 1
    let lfC := { lfB with pool := { lfB.pool with
                  in_use := in_use_now,
                  high_watermark := max lfB.pool.high_watermark in_use_now } }
    if lfC.pool.options_.verify_poison_on_alloc ∧ lfC.pool.options_.poison_on_free
        ∧ ptrBytes < lfC.pool.alignedObjSize ∧ lfC.pool.tailPoison idx = false then
      none
    else
      let lfD :=
        if lfC.pool.options_.zero_on_alloc then
          { lfC with pool := { lfC.pool with
              link := Function.update lfC.pool.link idx 0,
              tailPoison := Function.update lfC.pool.tailPoison idx
                (decide (lfC.pool.options_.poison_byte = 0)) } }
        else lfC
      some (some head, lfD)

/-- `LockFreePoolAllocator::lfFreeListPush_` (`poolAllocator.cpp` lines
235-243) in the single-threaded interleaving (the CAS push succeeds on its
first attempt). -/
def LockFreePoolAllocator.lfFreeListPush_ (lf : LFState) (p : Nat) : LFState :=
  { lf with next_ := Function.update lf.next_ (lf.pool.indexOf p) lf.freeListHead,
            freeListHead := p }

/-- `LockFreePoolAllocator::deallocate` (`poolAllocator.cpp` lines 245-272).
A `none` models the fatal out-of-range abort. -/
def LockFreePoolAllocator.deallocate (lf : LFState) (p : Nat) : Option LFState :=
  if p = 0 then some lf
  else if ¬ lf.inRange_ p then none
  else
    let lf := if lf.pool.options_.poison_on_free then
        { lf with pool := PoolAllocator.applyPoison_ lf.pool p } else lf
    let lf :=
      if 0 < lf.pool.options_.quarantine_size then
        let lf := { lf with lfQuarantine := lf.lfQuarantine ++ [p] }
        if lf.pool.options_.quarantine_size < lf.lfQuarantine.length then
          match lf.lfQuarantine with
          | [] => lf
          | victim :: rest =>
            LockFreePoolAllocator.lfFreeListPush_ { lf with lfQuarantine := rest } victim
        else lf
      else LockFreePoolAllocator.lfFreeListPush_ lf p
    some { lf with pool := { lf.pool with
             usedCount := lf.pool.usedCount - 1,
             free_calls := lf.pool.free_calls + 1,
             in_use := lf.pool.in_use - 1 } }

/-- One external call to a pool allocator. -/
inductive PoolOp where
  | alloc : PoolOp
  | free : Nat → PoolOp

/-- Run a call sequence against a `PoolAllocator`, collecting one entry per
call: for `alloc`, the returned pointer (`none` meaning null); for `free`,
`none`. An overall `none` means a call hit a fatal abort. -/
def stRun : PoolState → List PoolOp → Option (List (Option Nat) × PoolState)
  | st, [] => some ([], st)
  | st, PoolOp.alloc :: ops =>
    match PoolAllocator.allocate st with
    | none => none
    | some (r, st') =>
      match stRun st' ops with
      | none => none
      | some (rs, stf) => some (r :: rs, stf)
  | st, PoolOp.free p :: ops =>
    match stRun (PoolAllocator.deallocate st p) ops with
    | none => none
    | some (rs, stf) => some (none :: rs, stf)

/-- Outputs of an ST-pool run. -/
def stOuts (st : PoolState) (ops : List PoolOp) : Option (List (Option Nat)) :=
  (stRun st ops).map Prod.fst

/-- Final state of an ST-pool run. -/
def stFinal (st : PoolState) (ops : List PoolOp) : Option PoolState :=
  (stRun st ops).map Prod.snd

/-- Run a call sequence against a `LockFreePoolAllocator` (single-threaded
interleaving), collecting the same per-call outputs as `stRun`. -/
def lfRun : LFState → List PoolOp → Option (List (Option Nat) × LFState)
  | lf, [] => some ([], lf)
  | lf, PoolOp.alloc :: ops =>
    match LockFreePoolAllocator.allocate lf with
    | none => none
    | some (r, lf') =>
      match lfRun lf' ops with
      | none => none
      | some (rs, lff) => some (r :: rs, lff)
  | lf, PoolOp.free p :: ops =>
    match LockFreePoolAllocator.deallocate lf p with
    | none => none
    | some lf' =>
      match lfRun lf' ops with
      | none => none
      | some (rs, lff) => some (none :: rs, lff)

/-- Outputs of a lock-free-pool run. -/
def lfOuts (lf : LFState) (ops : List PoolOp) : Option (List (Option Nat)) :=
  (lfRun lf ops).map Prod.fst

/-- Final state of a lock-free-pool run. -/
def lfFinal (lf : LFState) (ops : List PoolOp) : Option LFState :=
  (lfRun lf ops).map Prod.snd

/-- Valid call sequences against the ST pool: every `free` argument is either
null or a pointer currently held from a successful `alloc`. The list `h`
tracks the currently held pointers. After a fatal abort the remaining calls
never execute, so any continuation is vacuously valid. -/
inductive ValidFrom : PoolState → List Nat → List PoolOp → Prop where
  | nil : ∀ st h, ValidFrom st h []
  | alloc_fatal : ∀ st h ops, PoolAllocator.allocate st = none →
      ValidFrom st h (PoolOp.alloc :: ops)
  | alloc_null : ∀ st h ops st', PoolAllocator.allocate st = some (none, st') →
      ValidFrom st' h ops → ValidFrom st h (PoolOp.alloc :: ops)
  | alloc_ok : ∀ st h ops p st', PoolAllocator.allocate st = some (some p, st') →
      ValidFrom st' (p :: h) ops → ValidFrom st h (PoolOp.alloc :: ops)
  | free_null : ∀ st h ops, ValidFrom (PoolAllocator.deallocate st 0) h ops →
      ValidFrom st h (PoolOp.free 0 :: ops)
  | free_held : ∀ st h ops p, p ∈ h → p ≠ 0 →
      ValidFrom (PoolAllocator.deallocate st p) (h.erase p) ops →
      ValidFrom st h (PoolOp.free p :: ops)

/-- Valid call sequences against the lock-free pool, single-threaded
interleaving; mirror image of `ValidFrom`. -/
inductive LFValidFrom : LFState → List Nat → List PoolOp → Prop where
  | nil : ∀ lf h, LFValidFrom lf h []
  | alloc_fatal : ∀ lf h ops, LockFreePoolAllocator.allocate lf = none →
      LFValidFrom lf h (PoolOp.alloc :: ops)
  | alloc_null : ∀ lf h ops lf', LockFreePoolAllocator.allocate lf = some (none, lf') →
      LFValidFrom lf' h ops → LFValidFrom lf h (PoolOp.alloc :: ops)
  | alloc_ok : ∀ lf h ops p lf', LockFreePoolAllocator.allocate lf = some (some p, lf') →
      LFValidFrom lf' (p :: h) ops → LFValidFrom lf h (PoolOp.alloc :: ops)
  | free_fatal : ∀ lf h ops p, LockFreePoolAllocator.deallocate lf p = none →
      LFValidFrom lf h (PoolOp.free p :: ops)
  | free_null : ∀ lf h ops lf', LockFreePoolAllocator.deallocate lf 0 = some lf' →
      LFValidFrom lf' h ops → LFValidFrom lf h (PoolOp.free 0 :: ops)
  | free_held : ∀ lf h ops p lf', p ∈ h → p ≠ 0 →
      LockFreePoolAllocator.deallocate lf p = some lf' →
      LFValidFrom lf' (h.erase p) ops → LFValidFrom lf h (PoolOp.free p :: ops)

/-- Free-list chain: starting from pointer `hd` and repeatedly following the
link obtained from `link` at the pointer's cell index visits exactly the
pointers in `l` and ends at null. Every chain member is recorded as a valid
cell address. -/
inductive Chain (link : Nat → Nat) (base sz cap : Nat) : Nat → List Nat → Prop where
  | nil : Chain link base sz cap 0 []
  | cons : ∀ p l i, p = cellAddr base sz i → i < cap → p ≠ 0 →
      Chain link base sz cap (link ((p - base) / sz)) l →
      Chain link base sz cap p (p :: l)

/-- `ArenaOptions` from `include/allocators/arenaAllocator.hpp` (lines
14-32). `growth_factor` is a C++ `double` and is not stored here: the one
place it is read, `allocateSlow_` computes
`static_cast<std::size_t>(static_cast<double>(want) * g)`, and that truncated
product is supplied by the environment oracle `ArenaEnv.fpGrow`. -/
structure ArenaOptions where
  initial_chunk_size : Nat := 2 ^ 20
  max_chunk_size : Nat := 2 ^ 26
  guard_pages : Bool := false
  prefer_huge : Bool := false
  use_canaries : Bool := false
  canary_size : Nat := 0
  canary_byte : Nat := 0xCA
  journaling : Bool := false
  journal_threshold_bytes : Nat := 0
deriving DecidableEq

/-- `ArenaAllocator::ArenaChunk` (`arenaAllocator.hpp` lines 42-50). -/
structure ArenaChunk where
  base : Nat := 0
  size : Nat := 0
  offset : Nat := 0
  use_mmap : Bool := false
  guard_pages : Bool := false
deriving DecidableEq

/-- Environment oracle for machine-chosen values: `mallocBase n` is the
address the backing returns for the arena's `n`-th chunk allocation, and
`fpGrow want` is the value of `static_cast<std::size_t>(static_cast<double>(want) * g)`
(floating-point rounding is outside the model, so the product is an oracle). -/
structure ArenaEnv where
  mallocBase : Nat → Nat
  fpGrow : Nat → Nat

/-- State of an `ArenaAllocator` (`arenaAllocator.hpp` lines 123-133) without
an attached `ArenaGroup` (`group_ == nullptr`). `allocCount` counts backing
allocations, indexing `ArenaEnv.mallocBase`. The write-only journal ring is
not modeled. -/
structure ArenaState where
  opts : ArenaOptions
  chunks : List ArenaChunk
  nextChunkBytes : Nat
  totalBytes : Nat
  allocCount : Nat
deriving DecidableEq

/-- Value of `sizeof(ArenaAllocator::BlockHeader)` on LP64: two `uint32_t`
plus four `size_t` fields, naturally aligned, give 40 bytes. -/
def sizeofBlockHeader : Nat := 40

/-- `ArenaAllocator::alignUp_` (`arenaAllocator.hpp` lines 114-116), the
`size_t` twin of `align_up`. -/
def ArenaAllocator.alignUp_ (n a : Nat) : Nat :=
  ((n + a - 1) % 2 ^ 64) &&& ((2 ^ 64 - 1) - (a - 1))

/-- `ArenaAllocator::osAllocChunk_` (`arenaAllocator.cpp` lines 284-296);
`newBase` models the address `std::malloc` returns. -/
def ArenaAllocator.osAllocChunk_ (newBase usableBytes : Nat) : ArenaChunk :=
  { base := newBase, size := max usableBytes 4096, offset := 0 }

/-- `ArenaAllocator::newChunk_` (`arenaAllocator.cpp` lines 241-251) for an
arena without an attached group: the portable OS backing path. -/
def ArenaAllocator.newChunk_ (env : ArenaEnv) (st : ArenaState) (minBytes : Nat) :
    ArenaChunk × ArenaState :=
  let want := max minBytes (max st.nextChunkBytes 4096)
  (ArenaAllocator.osAllocChunk_ (env.mallocBase st.allocCount) want,
   { st with allocCount := st.allocCount + 1 })

/-- `ArenaAllocator::tryAllocFromChunk_` (`arenaAllocator.cpp` lines
201-238). The header and canary writes touch only metadata bytes and do not
change the allocation state beyond `offset`. -/
def ArenaAllocator.tryAllocFromChunk_ (opts : ArenaOptions) (c : ArenaChunk)
    (userSize alignment : Nat) : Option (Nat × ArenaChunk) :=
  let base := c.base
  let cur := base + c.offset
  let hdrAddr := align_up cur maxAlignBytes
  let hdrEnd := hdrAddr + sizeofBlockHeader
  let pre := if opts.use_canaries then opts.canary_size else 0
  let post := if opts.use_canaries then opts.canary_size else 0
  let userAddr := align_up (hdrEnd + pre) alignment
  let endAddr := userAddr + userSize + post
  if base + c.size < endAddr then none
  else some (userAddr, { c with offset := endAddr - base })

/-- `std::clamp(v, lo, hi)` as libstdc++ implements it:
`v < lo ? lo : hi < v ? hi : v` (precondition `lo ≤ hi`; `allocateSlow_` can
violate that precondition, and then this is the behavior observed). -/
def stdClamp (v lo hi : Nat) : Nat := if v < lo then lo else if hi < v then hi else v

/-- Worst-case bytes a fresh chunk needs (`allocateSlow_`, lines 159-162):
aligned header + pre-canary + alignment slack + user size + post-canary. -/
def ArenaAllocator.slowWorst (opts : ArenaOptions) (size alignment : Nat) : Nat :=
  let header := ArenaAllocator.alignUp_ sizeofBlockHeader maxAlignBytes
  let pre := if opts.use_canaries then opts.canary_size else 0
  let post := if opts.use_canaries then opts.canary_size else 0
  header + pre + alignment + size + post

/-- Chunk size chosen on the slow path (`allocateSlow_`, lines 165-166). -/
def ArenaAllocator.slowWant (st : ArenaState) (worst : Nat) : Nat :=
  stdClamp (max st.nextChunkBytes worst) (max st.opts.initial_chunk_size worst)
    st.opts.max_chunk_size

/-- Update of `nextChunkBytes_` after a slow-path growth (`allocateSlow_`,
lines 172-180); `prod` stands for the truncated double product
`static_cast<std::size_t>(static_cast<double>(want) * g)`. -/
def ArenaAllocator.nextChunkUpdate (prod worst initial maxc : Nat) : Nat :=
  let next := prod
  let next := if next < worst then worst else next
  let next := if next < initial then initial else next
  if maxc < next then maxc else next

/-- Modeled from the spec sentence behind claim C4: the value
`clamp(want × growth_factor, [worst, max_chunk_size])`, reading `clamp` with
the usual min/max semantics. For comparison with `nextChunkUpdate`. -/
def specClampGrowth (prod worst maxc : Nat) : Nat := min (max prod worst) maxc

/-- `ArenaAllocator::allocateSlow_` (`arenaAllocator.cpp` lines 155-198). A
`none` models the fatal "could not satisfy allocation" abort. -/
def ArenaAllocator.allocateSlow_ (env : ArenaEnv) (st : ArenaState) (size alignment : Nat) :
    Option (Nat × ArenaState) :=
  let worst := ArenaAllocator.slowWorst st.opts size alignment
  let want := ArenaAllocator.slowWant st worst
  let cs1 := ArenaAllocator.newChunk_ env st want
  let st2 := { cs1.2 with
               chunks := cs1.2.chunks ++ [cs1.1],
               nextChunkBytes := ArenaAllocator.nextChunkUpdate (env.fpGrow want) worst
                 st.opts.initial_chunk_size st.opts.max_chunk_size }
  match ArenaAllocator.tryAllocFromChunk_ st.opts cs1.1 size alignment with
  | some pc => some (pc.1, { st2 with
                             chunks := st2.chunks.dropLast ++ [pc.2],
                             totalBytes := st2.totalBytes + size })
  | none =>
    let cs2 := ArenaAllocator.newChunk_ env st2 worst
    let st4 := { cs2.2 with chunks := cs2.2.chunks ++ [cs2.1] }
    match ArenaAllocator.tryAllocFromChunk_ st.opts cs2.1 size alignment with
    | some pc => some (pc.1, { st4 with
                               chunks := st4.chunks.dropLast ++ [pc.2],
                               totalBytes := st4.totalBytes + size })
    | none => none

/-- Alignment normalization at the top of `ArenaAllocator::allocate`
(`arenaAllocator.cpp` lines 101-106): raise to at least
`alignof(std::max_align_t)`, then round to the next power of two when the
value is not one already. -/
def ArenaAllocator.normalizeAlign (alignment : Nat) : Nat :=
  let a := if alignment < maxAlignBytes then maxAlignBytes else alignment
  if a &&& (a - 1) ≠ 0 then next_pow2 a else a

/-- `ArenaAllocator::allocate` (`arenaAllocator.cpp` lines 96-118). -/
def ArenaAllocator.allocate (env : ArenaEnv) (st : ArenaState) (bytes alignment : Nat) :
    Option (Nat × ArenaState) :=
  let bytes := if bytes = 0 then 1 else bytes
  let alignment := ArenaAllocator.normalizeAlign alignment
  match st.chunks.getLast? with
  | none => ArenaAllocator.allocateSlow_ env st bytes alignment
  | some c =>
    match ArenaAllocator.tryAllocFromChunk_ st.opts c bytes alignment with
    | some pc => some (pc.1, { st with
                               chunks := st.chunks.dropLast ++ [pc.2],
                               totalBytes := st.totalBytes + bytes })
    | none => ArenaAllocator.allocateSlow_ env st bytes alignment

/-- `BIN_COUNT` from `arenaAllocator.cpp` line 311. -/
def BIN_COUNT : Nat := 6

/-- `class_bytes` (`arenaAllocator.cpp` lines 312-322): the six-class size
table, indices past the end clamped to the last class. -/
def class_bytes (idx : Nat) : Nat :=
  List.getD [65536, 262144, 1048576, 4194304, 16777216, 67108864]
    (if idx < BIN_COUNT then idx else BIN_COUNT - 1) 0

/-- `pick_index` (`arenaAllocator.cpp` lines 323-331): first class whose size
covers `minBytes`, else the last class. -/
def pick_index (minBytes : Nat) : Nat :=
  ((List.range BIN_COUNT).find? (fun i => decide (minBytes ≤ class_bytes i))).getD
    (BIN_COUNT - 1)

/-- State of an `ArenaGroup` (`arenaAllocator.hpp` lines 159-172): the
size-class bins. Each bin's slab vector is kept in `push_back` order, so the
LIFO top is the last element. -/
structure ArenaGroupState where
  bins : List (List ArenaChunk)

/-- Effect of `bins_.resize(BIN_COUNT)` guarded by `idx >= bins_.size()`. -/
def ArenaGroup.ensureBins (bins : List (List ArenaChunk)) (idx : Nat) :
    List (List ArenaChunk) :=
  if bins.length ≤ idx then
    bins.take BIN_COUNT ++ List.replicate (BIN_COUNT - bins.length) []
  else bins

/-- `ArenaGroup::release` (`arenaAllocator.cpp` lines 353-363). -/
def ArenaGroup.release (g : ArenaGroupState) (chunk : ArenaChunk) : ArenaGroupState :=
  if chunk.base = 0 ∨ chunk.size = 0 then g
  else
    let idx := pick_index chunk.size
    let bins := ArenaGroup.ensureBins g.bins idx
    { bins := bins.set idx ((bins.getD idx []) ++ [{ chunk with offset := 0 }]) }

/-- `ArenaGroup::acquire` (`arenaAllocator.cpp` lines 334-351). `freshBase`
models the malloc base used when a new chunk has to be constructed; the
guard/huge flags are no-ops in the portable backing. -/
def ArenaGroup.acquire (g : ArenaGroupState) (minBytes : Nat) (_guards _preferHuge : Bool)
    (freshBase : Nat) : ArenaChunk × ArenaGroupState :=
  let idx := pick_index minBytes
  let bins := ArenaGroup.ensureBins g.bins idx
  let vec := bins.getD idx []
  match vec.getLast? with
  | some c => ({ c with offset := 0 }, { bins := bins.set idx vec.dropLast })
  | none =>
    let want := max minBytes (class_bytes idx)
    (ArenaAllocator.osAllocChunk_ freshBase want, { bins := bins })

/-- One external call to an `ArenaGroup`. -/
inductive GroupOp where
  | acq : Nat → Nat → GroupOp
  | rel : ArenaChunk → GroupOp

/-- Run a sequence of acquire/release calls against an `ArenaGroup`
(acquired chunks go to the caller and are dropped here). -/
def runGroup (g : ArenaGroupState) : List GroupOp → ArenaGroupState
  | [] => g
  | GroupOp.acq m b :: ops => runGroup (ArenaGroup.acquire g m false false b).2 ops
  | GroupOp.rel c :: ops => runGroup (ArenaGroup.release g c) ops

/-- Effect of the optional `zero_on_alloc` memset on the modeled tail-poison
state of the popped cell: zeroing leaves the tail all-poison only when the
poison byte is 0. -/
def zeroPoison (options : PoolOptions) (tp : Nat → Bool) (idx : Nat) : Nat → Bool :=
  if options.zero_on_alloc then Function.update tp idx (decide (options.poison_byte = 0))
  else tp

/-- Effect of the optional `poison_on_free` memset on the modeled tail-poison
state of the freed cell (a no-op when the cell has no tail). -/
def poisonApply (options : PoolOptions) (sz : Nat) (tp : Nat → Bool) (idx : Nat) : Nat → Bool :=
  if options.poison_on_free = true ∧ ptrBytes < sz then Function.update tp idx true
  else tp

/-- Simulation invariant tying an ST-pool state to a lock-free-pool state in
the single-threaded interleaving: same configuration and hygiene state, equal
quarantines, and free lists that chain over one common cell sequence which,
together with the quarantine and the held pointers, is a permutation of all
cells. -/
structure SimInv (st : PoolState) (lf : LFState) (held : List Nat) : Prop where
  base_eq : lf.pool.memoryBlock = st.memoryBlock
  size_eq : lf.pool.alignedObjSize = st.alignedObjSize
  cap_eq : lf.pool.poolCapacity = st.poolCapacity
  opts_eq : lf.pool.options_ = st.options_
  poison_eq : ∀ i, lf.pool.tailPoison i = st.tailPoison i
  quar_eq : lf.lfQuarantine = st.quarantine
  base_pos : 0 < st.memoryBlock
  size_pos : 0 < st.alignedObjSize
  freelist : ∃ l, Chain st.link st.memoryBlock st.alignedObjSize st.poolCapacity
        st.nonAtomicFreeListHead l
      ∧ Chain lf.next_ st.memoryBlock st.alignedObjSize st.poolCapacity lf.freeListHead l
      ∧ (l ++ st.quarantine ++ held).Perm
          (cells st.memoryBlock st.alignedObjSize st.poolCapacity)

/-! Helper lemmas. -/

/-- Characterization of `pick_index` as an explicit threshold chain. -/
theorem pick_index_eq (s : Nat) :
    pick_index s =
      if s ≤ 65536 then 0 else if s ≤ 262144 then 1 else if s ≤ 1048576 then 2
      else if s ≤ 4194304 then 3 else if s ≤ 16777216 then 4 else 5 := by
  have h6 : List.range 6 = [0, 1, 2, 3, 4, 5] := rfl
  simp only [pick_index, BIN_COUNT, h6, List.find?, class_bytes, List.getD]
  norm_num
  repeat' split
  all_goals simp_all

/-- The bin chosen by `pick_index` is always a real bin index. -/
theorem pick_index_lt_bin_count (s : Nat) : pick_index s < BIN_COUNT := by
  rw [pick_index_eq]
  unfold BIN_COUNT
  repeat' split
  all_goals omega

/-- Routing upper bound: a chunk routed to a non-last bin is no larger than
the bin's class size. -/
theorem pick_index_upper (s : Nat) (h : pick_index s < BIN_COUNT - 1) :
    s ≤ class_bytes (pick_index s) := by
  rw [pick_index_eq] at h ⊢
  by_cases h1 : s ≤ 65536 <;> by_cases h2 : s ≤ 262144 <;> by_cases h3 : s ≤ 1048576 <;>
    by_cases h4 : s ≤ 4194304 <;> by_cases h5 : s ≤ 16777216 <;>
    simp [class_bytes, BIN_COUNT, h1, h2, h3, h4, h5] at h ⊢ <;> omega

/-- Routing lower bound: a chunk routed to bin `i > 0` is larger than the
previous class size. -/
theorem pick_index_lower (s : Nat) (h : 0 < pick_index s) :
    class_bytes (pick_index s - 1) < s := by
  rw [pick_index_eq] at h ⊢
  by_cases h1 : s ≤ 65536 <;> by_cases h2 : s ≤ 262144 <;> by_cases h3 : s ≤ 1048576 <;>
    by_cases h4 : s ≤ 4194304 <;> by_cases h5 : s ≤ 16777216 <;>
    simp [class_bytes, BIN_COUNT, h1, h2, h3, h4, h5] at h ⊢ <;> omega

/-- Reading off `List.getD` after a `List.set`. -/
theorem getD_set {α : Type} (l : List α) (i j : Nat) (v d : α) :
    (l.set i v).getD j d = if i = j ∧ i < l.length then v else l.getD j d := by
  induction l generalizing i j with
  | nil => simp [List.getD]
  | cons a t ih =>
    cases i with
    | zero =>
      cases j with
      | zero => simp
      | succ m => simp [List.getD]
    | succ n =>
      cases j with
      | zero => simp [List.getD]
      | succ m =>
        simp only [List.set, List.getD_cons_succ, ih, List.length_cons]
        by_cases hnm : n = m <;> simp [hnm] <;> omega

/-- Reading `List.getD` on a replicate of empty lists gives the empty list. -/
theorem getD_replicate_nil {α : Type} (k m : Nat) :
    (List.replicate k ([] : List α)).getD m [] = [] := by
  induction k generalizing m with
  | zero => simp [List.getD]
  | succ n ih =>
    cases m with
    | zero => simp [List.replicate]
    | succ m' => simpa [List.replicate] using ih m'

/-- Padding a list of lists with empty bins does not change any `getD` read. -/
theorem getD_append_nil_pad {α : Type} (l : List (List α)) (k j : Nat) :
    (l ++ List.replicate k ([] : List α)).getD j [] = l.getD j [] := by
  induction l generalizing j with
  | nil => simp [getD_replicate_nil, List.getD]
  | cons a t ih =>
    cases j with
    | zero => simp
    | succ m => simpa using ih m

/-- The guarded `resize` never changes the content of any bin. -/
theorem ensureBins_getD (bins : List (List ArenaChunk)) (idx j : Nat)
    (hlen : bins.length ≤ BIN_COUNT) :
    (ArenaGroup.ensureBins bins idx).getD j [] = bins.getD j [] := by
  unfold ArenaGroup.ensureBins
  split
  · rw [List.take_of_length_le (le_trans hlen (by unfold BIN_COUNT; omega)), getD_append_nil_pad]
  · rfl

/-- The guarded `resize` keeps the bin vector within `BIN_COUNT` bins. -/
theorem ensureBins_length (bins : List (List ArenaChunk)) (idx : Nat)
    (hlen : bins.length ≤ BIN_COUNT) :
    (ArenaGroup.ensureBins bins idx).length ≤ BIN_COUNT := by
  unfold ArenaGroup.ensureBins
  split
  · simp [List.take_of_length_le (le_trans hlen (le_refl _))]
    omega
  · exact hlen

/-- After the guarded `resize`, the target bin index is in range. -/
theorem ensureBins_lt_length (bins : List (List ArenaChunk)) (idx : Nat)
    (h : idx < BIN_COUNT) :
    idx < (ArenaGroup.ensureBins bins idx).length := by
  unfold ArenaGroup.ensureBins
  split
  · simp only [List.length_append, List.length_take, List.length_replicate]
    unfold BIN_COUNT at h ⊢
    omega
  · omega

/-- An `acquire` only removes chunks from bins: any chunk still binned after
it was binned before, and the bin vector stays within `BIN_COUNT`. -/
theorem acquire_step (g : ArenaGroupState) (m b : Nat) (hlen : g.bins.length ≤ BIN_COUNT) :
    (ArenaGroup.acquire g m false false b).2.bins.length ≤ BIN_COUNT
      ∧ ∀ j c, c ∈ (ArenaGroup.acquire g m false false b).2.bins.getD j [] →
          c ∈ g.bins.getD j [] := by
  simp only [ArenaGroup.acquire]
  have hidx := pick_index_lt_bin_count m
  have hlen' := ensureBins_length g.bins (pick_index m) hlen
  have hgetD := fun j => ensureBins_getD g.bins (pick_index m) j hlen
  split
  · constructor
    · simpa using hlen'
    · intro j c hc
      simp only at hc
      rw [getD_set] at hc
      split at hc
      · rw [← hgetD j]
        rename_i hj
        obtain ⟨hj1, -⟩ := hj
        rw [← hj1]
        exact List.dropLast_subset _ hc
      · rw [← hgetD j]; exact hc
  · constructor
    · simpa using hlen'
    · intro j c hc
      simp only at hc
      rw [← hgetD j]; exact hc

theorem release_step (g : ArenaGroupState) (ch : ArenaChunk) (hlen : g.bins.length ≤ BIN_COUNT) :
    (ArenaGroup.release g ch).bins.length ≤ BIN_COUNT
      ∧ ∀ j c, c ∈ (ArenaGroup.release g ch).bins.getD j [] →
          c ∈ g.bins.getD j []
            ∨ (c = { ch with offset := 0 } ∧ j = pick_index ch.size ∧ ¬(ch.base = 0 ∨ ch.size = 0)) := by
  simp only [ArenaGroup.release]
  split
  · exact ⟨hlen, fun j c hc => Or.inl hc⟩
  · have hidx := pick_index_lt_bin_count ch.size
    have hlen' := ensureBins_length g.bins (pick_index ch.size) hlen
    have hgetD := fun j => ensureBins_getD g.bins (pick_index ch.size) j hlen
    constructor
    · simpa using hlen'
    · intro j c hc
      simp only at hc
      rw [getD_set] at hc
      split at hc
      · rename_i hj
        obtain ⟨hj1, -⟩ := hj
        rcases List.mem_append.1 hc with hold | hnew
        · left; rw [← hgetD j, ← hj1]; exact hold
        · right
          exact ⟨List.mem_singleton.1 hnew, hj1.symm, by assumption⟩
      · left; rw [← hgetD j]; exact hc

/-- Auxiliary induction for the ArenaGroup bin invariant. -/
theorem runGroup_inv (ops : List GroupOp) (g : ArenaGroupState)
    (hlen : g.bins.length ≤ BIN_COUNT)
    (hinv : ∀ i c, c ∈ g.bins.getD i [] →
      c.offset = 0 ∧ 0 < c.size
        ∧ (i < BIN_COUNT - 1 → c.size ≤ class_bytes i)
        ∧ (0 < i → class_bytes (i - 1) < c.size)) :
    (runGroup g ops).bins.length ≤ BIN_COUNT
      ∧ ∀ i c, c ∈ (runGroup g ops).bins.getD i [] →
        c.offset = 0 ∧ 0 < c.size
          ∧ (i < BIN_COUNT - 1 → c.size ≤ class_bytes i)
          ∧ (0 < i → class_bytes (i - 1) < c.size) := by
  induction ops generalizing g with
  | nil => exact ⟨hlen, hinv⟩
  | cons op ops ih =>
    cases op with
    | acq m b =>
      obtain ⟨h1, h2⟩ := acquire_step g m b hlen
      exact ih _ h1 (fun i c hc => hinv i c (h2 i c hc))
    | rel ch =>
      obtain ⟨h1, h2⟩ := release_step g ch hlen
      refine ih _ h1 (fun i c hc => ?_)
      rcases h2 i c hc with hold | ⟨hceq, hieq, hne⟩
      · exact hinv i c hold
      · subst hceq; subst hieq
        have hsz : 0 < ch.size := by
          rcases Nat.eq_zero_or_pos ch.size with h0 | h0
          · exact absurd (Or.inr h0) hne
          · exact h0
        refine ⟨rfl, by simpa using hsz, ?_, ?_⟩
        · intro hlt; simpa using pick_index_upper ch.size hlt
        · intro hpos; simpa using pick_index_lower ch.size hpos

/-- Claim C1, counterexample to the invariant as stated: starting from a
fresh `ArenaGroup`, releasing a single chunk of size 4096 (the smallest chunk
`osAllocChunk_` can produce, e.g. the initial chunk of an arena constructed
with a small `initial_chunk_size`) routes it to bin 0 via
`pick_index 4096 = 0`, yet its size 4096 is smaller than
`class_bytes 0 = 65536`, so "every chunk in bin i has size ≥ class_bytes(i)"
fails after this one-release sequence. -/
theorem c1_counterexample :
    ((runGroup ⟨[]⟩ [GroupOp.rel { base := 16, size := 4096, offset := 0 }]).bins.getD 0 []).map
        ArenaChunk.size = [4096]
      ∧ 4096 < class_bytes 0 := by
  constructor
  · rfl
  · decide

/-- Claim C1 (amended): for every ArenaGroup, after any sequence of acquire
and release operations starting from a fresh group, every chunk stored in bin
`i` has `offset = 0` and positive size, and the class bound is an upper bound
rather than the spec's lower bound: `size ≤ class_bytes(i)` for every non-last
bin `i`, and for `i > 0` also `class_bytes(i-1) < size`. The spec's lower
bound `size ≥ class_bytes(i)` is not guaranteed for any bin: the last bin
receives every chunk larger than `class_bytes(4)` = 16 MiB, including sizes
below `class_bytes(5)` = 64 MiB (e.g. a 20 MiB chunk). -/
theorem c1_bins_invariant (ops : List GroupOp) (i : Nat) (c : ArenaChunk)
    (hc : c ∈ (runGroup ⟨[]⟩ ops).bins.getD i []) :
    c.offset = 0 ∧ 0 < c.size
      ∧ (i < BIN_COUNT - 1 → c.size ≤ class_bytes i)
      ∧ (0 < i → class_bytes (i - 1) < c.size) := by
  refine (runGroup_inv ops ⟨[]⟩ (by simp [BIN_COUNT]) ?_).2 i c hc
  intro j d hd
  simp [List.getD] at hd

/-- Witness for the amended C1 invariant at a concrete run: release a 70000-
byte chunk (it lands in bin 1), then check the invariant on it. -/
theorem c1_witness :
    ({ base := 32, size := 70000, offset := 0, use_mmap := false, guard_pages := false }
        : ArenaChunk) ∈ (runGroup ⟨[]⟩
          [GroupOp.rel { base := 32, size := 70000, offset := 3 }]).bins.getD 1 []
      ∧ (70000 ≤ class_bytes 1 ∧ class_bytes 0 < 70000) :=
  ⟨by decide, by
    have h := c1_bins_invariant [GroupOp.rel { base := 32, size := 70000, offset := 3 }] 1
      { base := 32, size := 70000, offset := 0, use_mmap := false, guard_pages := false }
      (by decide)
    exact ⟨by simpa using h.2.2.1 (by decide), by simpa using h.2.2.2 (by decide)⟩⟩

/-- Claim C9: for every PoolAllocator, `getStats()` reports the field
`object_size` equal to `aligned_object_size` (the requested object size,
raised to at least pointer size and rounded up to the maximum scalar
alignment), not the `object_size` value passed to the constructor; in
particular a pool constructed with `object_size = 20` reports
`object_size = 32 ≠ 20`. -/
theorem c9_getStats_object_size :
    (∀ objectSize capacity options base,
      (PoolAllocator.getStats (poolInit objectSize capacity options base)).object_size
          = (poolInit objectSize capacity options base).alignedObjSize
        ∧ (PoolAllocator.getStats (poolInit objectSize capacity options base)).aligned_object_size
          = (poolInit objectSize capacity options base).alignedObjSize)
      ∧ (PoolAllocator.getStats (poolInit 20 4 {} 4096)).object_size = 32
      ∧ (PoolAllocator.getStats (poolInit 20 4 {} 4096)).object_size ≠ 20 := by
  refine ⟨fun objectSize capacity options base => ⟨rfl, rfl⟩, by decide, by decide⟩

/-- Claim C4, counterexample: the update can leave `next_chunk_bytes` below
`initial_chunk_size`, because the `max_chunk_size` cap is applied last. The
inputs are reachable: options `initial_chunk_size = 2^20 = 1048576`,
`max_chunk_size = 4096`, `growth_factor = 2.0`; the constructor produced the
initial 1 MiB chunk; `allocate(1048576, 16)` overflows it, so the slow path
runs with `worst = 48 + 16 + 1048576 = 1048640`, picks `want = 4096` (the
clamp cap), acquires a chunk, and updates
`next_chunk_bytes = nextChunkUpdate (2 * 4096) 1048640 1048576 4096 = 4096`,
which is below `initial_chunk_size = 1048576` — contradicting "never letting
it fall below initial_chunk_size". -/
theorem c4_counterexample :
    (ArenaAllocator.allocate ⟨fun _ => 2 ^ 32, fun w => 2 * w⟩
        { opts := { initial_chunk_size := 1048576, max_chunk_size := 4096 },
          chunks := [ArenaAllocator.osAllocChunk_ 16 1048576],
          nextChunkBytes := 1048576, totalBytes := 0, allocCount := 1 }
        1048576 16).map (fun r => r.2.nextChunkBytes) = some 4096
      ∧ 4096 < 1048576 := by
  constructor
  · rfl
  · decide

/-- Claim C4 (amended): after every slow-path growth the arena sets
`next_chunk_bytes` to `clamp(want × growth_factor, [worst, max_chunk_size])`
raised to at least `initial_chunk_size`, provided
`initial_chunk_size ≤ max_chunk_size`; without that proviso the
`max_chunk_size` cap is applied last and wins, so the value can fall below
`initial_chunk_size` (see the counterexample). The first conjunct
characterizes the pure update; the second ties it to `allocateSlow_`: on
every successful slow-path allocation the new `nextChunkBytes` is exactly the
update applied to the product for the chosen `want` and the computed `worst`. -/
theorem c4_nextChunkBytes_update :
    (∀ prod worst initial maxc, initial ≤ maxc →
      ArenaAllocator.nextChunkUpdate prod worst initial maxc
          = max (specClampGrowth prod worst maxc) initial
        ∧ initial ≤ ArenaAllocator.nextChunkUpdate prod worst initial maxc)
      ∧ (∀ env st size alignment p st',
          ArenaAllocator.allocateSlow_ env st size alignment = some (p, st') →
          st'.nextChunkBytes
            = ArenaAllocator.nextChunkUpdate
                (env.fpGrow (ArenaAllocator.slowWant st
                  (ArenaAllocator.slowWorst st.opts size alignment)))
                (ArenaAllocator.slowWorst st.opts size alignment)
                st.opts.initial_chunk_size st.opts.max_chunk_size) := by
  constructor
  · intro prod worst initial maxc h
    simp only [ArenaAllocator.nextChunkUpdate, specClampGrowth]
    constructor <;> repeat' split
    all_goals omega
  · intro env st size alignment p st' hres
    simp only [ArenaAllocator.allocateSlow_] at hres
    split at hres
    · simp only [Option.some.injEq, Prod.mk.injEq] at hres
      obtain ⟨-, h2⟩ := hres
      subst h2
      rfl
    · split at hres
      · simp only [Option.some.injEq, Prod.mk.injEq] at hres
        obtain ⟨-, h2⟩ := hres
        subst h2
        rfl
      · exact absurd hres (by simp)

/-- Witness for the amended C4 update characterization at concrete values. -/
theorem c4_witness :
    (100 : Nat) ≤ 200
      ∧ (ArenaAllocator.nextChunkUpdate 150 50 100 200
            = max (specClampGrowth 150 50 200) 100
          ∧ 100 ≤ ArenaAllocator.nextChunkUpdate 150 50 100 200) :=
  ⟨by decide, c4_nextChunkBytes_update.1 150 50 100 200 (by decide)⟩

/-- Masking with a multiple of `2^k` produces a multiple of `2^k`. -/
theorem land_dvd_of_dvd {m k : Nat} (y : Nat) (hm : 2 ^ k ∣ m) : 2 ^ k ∣ (y &&& m) := by
  apply Nat.dvd_of_mod_eq_zero
  have h1 : (y &&& m) % 2 ^ k = (y &&& m) &&& (2 ^ k - 1) :=
    (Nat.and_pow_two_sub_one_eq_mod _ _).symm
  rw [h1, Nat.and_assoc, Nat.and_pow_two_sub_one_eq_mod,
    Nat.mod_eq_zero_of_dvd hm, Nat.and_zero]

/-- The bitwise `align_up` always produces a multiple of its power-of-two
alignment (the complement mask clears exactly the low `k` bits). -/
theorem align_up_two_pow_dvd (p k : Nat) (hk : k ≤ 64) : 2 ^ k ∣ align_up p (2 ^ k) := by
  unfold align_up
  have hpos : 0 < (2:Nat) ^ k := pow_pos (by norm_num) k
  have hle : (2:Nat) ^ k ≤ 2 ^ 64 := Nat.pow_le_pow_right (by norm_num) hk
  have h1 : (2 ^ 64 - 1) - (2 ^ k - 1) = 2 ^ 64 - 2 ^ k := by omega
  rw [h1]
  exact land_dvd_of_dvd _ (Nat.dvd_sub' (pow_dvd_pow 2 hk) dvd_rfl)

/-- A power of two masked with its predecessor vanishes. -/
theorem two_pow_land_pred (m : Nat) : 2 ^ m &&& (2 ^ m - 1) = 0 := by
  have h := Nat.and_pow_two_sub_one_eq_mod (2 ^ m) m
  simpa [Nat.mod_self] using h

/-- Normalizing a power-of-two alignment raises it to at least 16 = 2^4 and
leaves it otherwise unchanged (the `next_pow2` branch is never taken). -/
theorem normalizeAlign_two_pow (k : Nat) :
    ArenaAllocator.normalizeAlign (2 ^ k) = 2 ^ max k 4 := by
  simp only [ArenaAllocator.normalizeAlign, maxAlignBytes]
  by_cases hk : k < 4
  · have h16 : (2:Nat) ^ k < 16 := by
      calc (2:Nat) ^ k ≤ 2 ^ 3 := Nat.pow_le_pow_right (by norm_num) (by omega)
      _ < 16 := by norm_num
    have hmax : max k 4 = 4 := by omega
    rw [if_pos h16, hmax]
    decide
  · have h16 : ¬ ((2:Nat) ^ k < 16) := by
      push_neg
      calc (16:Nat) = 2 ^ 4 := by norm_num
      _ ≤ 2 ^ k := Nat.pow_le_pow_right (by norm_num) (by omega)
    have hmax : max k 4 = k := by omega
    rw [if_neg h16, hmax]
    simp [two_pow_land_pred]

/-- Every pointer produced by `tryAllocFromChunk_` with a power-of-two
alignment is a multiple of that alignment. -/
theorem tryAllocFromChunk_aligned {opts : ArenaOptions} {c : ArenaChunk}
    {userSize m p : Nat} {c' : ArenaChunk} (hm : m ≤ 64)
    (h : ArenaAllocator.tryAllocFromChunk_ opts c userSize (2 ^ m) = some (p, c')) :
    p % 2 ^ m = 0 := by
  simp only [ArenaAllocator.tryAllocFromChunk_] at h
  repeat' split at h
  all_goals first
    | exact Option.noConfusion h
    | (injection h with h'
       injection h' with h1 h2
       rw [← h1]
       exact Nat.mod_eq_zero_of_dvd (align_up_two_pow_dvd _ m hm))

/-- Every pointer produced by the slow path with a power-of-two alignment is
a multiple of that alignment. -/
theorem allocateSlow_aligned {env : ArenaEnv} {st : ArenaState}
    {size m p : Nat} {st' : ArenaState} (hm : m ≤ 64)
    (h : ArenaAllocator.allocateSlow_ env st size (2 ^ m) = some (p, st')) :
    p % 2 ^ m = 0 := by
  simp only [ArenaAllocator.allocateSlow_] at h
  split at h
  · rename_i pc heq
    simp only [Option.some.injEq, Prod.mk.injEq] at h
    obtain ⟨h1, -⟩ := h
    rw [← h1]
    exact tryAllocFromChunk_aligned hm heq
  · split at h
    · rename_i pc heq
      simp only [Option.some.injEq, Prod.mk.injEq] at h
      obtain ⟨h1, -⟩ := h
      rw [← h1]
      exact tryAllocFromChunk_aligned hm heq
    · exact absurd h (by simp)

/-- Claim C3, counterexample to the claim as stated for every `align`: with
`align = 3` (not a power of two) on a chunk based at address 16 (a perfectly
possible 16-aligned `malloc` result), `allocate(100, 3)` normalizes the
alignment to 16 and returns pointer 64, and `64 mod 3 = 1 ≠ 0`. -/
theorem c3_counterexample :
    (ArenaAllocator.allocate ⟨fun _ => 16, fun w => 2 * w⟩
        { opts := {}, chunks := [{ base := 16, size := 4096, offset := 0 }],
          nextChunkBytes := 4096, totalBytes := 0, allocCount := 1 }
        100 3).map Prod.fst = some 64
      ∧ ¬ ((64 : Nat) % 3 = 0) := by
  constructor
  · rfl
  · decide

/-- Claim C3 (amended): for every `bytes` and every power-of-two `align`
(`align = 2^k`, `k ≤ 63`), every pointer returned by
`ArenaAllocator::allocate(bytes, align)` — from any state, any chunk bases,
fast or slow path — satisfies `p mod align = 0`. For non-power-of-two
`align` the pointer is aligned only to `next_pow2(max(align, 16))`, not
necessarily to `align` itself (see the counterexample). -/
theorem c3_alignment_pow2 (env : ArenaEnv) (st : ArenaState) (bytes k p : Nat)
    (st' : ArenaState) (hk : k ≤ 63)
    (h : ArenaAllocator.allocate env st bytes (2 ^ k) = some (p, st')) :
    p % 2 ^ k = 0 := by
  have hnorm := normalizeAlign_two_pow k
  have hm : max k 4 ≤ 64 := by omega
  have key : p % 2 ^ max k 4 = 0 := by
    simp only [ArenaAllocator.allocate, hnorm] at h
    split at h
    · exact allocateSlow_aligned hm h
    · split at h
      · rename_i c hc pc heq
        simp only [Option.some.injEq, Prod.mk.injEq] at h
        obtain ⟨h1, -⟩ := h
        rw [← h1]
        exact tryAllocFromChunk_aligned hm heq
      · exact allocateSlow_aligned hm h
  have hdvd : (2:Nat) ^ k ∣ p :=
    dvd_trans (pow_dvd_pow 2 (le_max_left k 4)) (Nat.dvd_of_mod_eq_zero key)
  exact Nat.mod_eq_zero_of_dvd hdvd

/-- Witness for the amended C3 theorem: `allocate(100, 64)` on a concrete
chunk returns pointer 64, a multiple of `64 = 2^6`. -/
theorem c3_witness : (6 : Nat) ≤ 63 ∧ (64 : Nat) % 2 ^ 6 = 0 :=
  ⟨by decide, c3_alignment_pow2 ⟨fun _ => 16, fun w => 2 * w⟩
    { opts := {}, chunks := [{ base := 16, size := 4096, offset := 0 }],
      nextChunkBytes := 4096, totalBytes := 0, allocCount := 1 }
    100 6 64
    { opts := {}, chunks := [{ base := 16, size := 4096, offset := 148 }],
      nextChunkBytes := 4096, totalBytes := 100, allocCount := 1 }
    (by decide) rfl⟩

/-- Count bookkeeping of a null-returning ST `allocate`. -/
theorem st_allocate_null_counts {st st' : PoolState}
    (h : PoolAllocator.allocate st = some (none, st')) :
    st'.alloc_calls = st.alloc_calls + 1 ∧ st'.alloc_failures = st.alloc_failures + 1
      ∧ st'.free_calls = st.free_calls ∧ st'.in_use = st.in_use := by
  simp only [PoolAllocator.allocate] at h
  split at h
  · injection h with h'
    injection h' with h1 h2
    rw [← h2]
    exact ⟨rfl, rfl, rfl, rfl⟩
  · split at h
    · exact Option.noConfusion h
    · injection h with h'
      injection h' with h1 h2
      exact Option.noConfusion h1

/-- Count bookkeeping of a successful ST `allocate`. -/
theorem st_allocate_ok_counts {st st' : PoolState} {p : Nat}
    (h : PoolAllocator.allocate st = some (some p, st')) :
    st'.alloc_calls = st.alloc_calls + 1 ∧ st'.alloc_failures = st.alloc_failures
      ∧ st'.free_calls = st.free_calls ∧ st'.in_use = st.in_use + 1 := by
  simp only [PoolAllocator.allocate] at h
  split at h
  · injection h with h'
    injection h' with h1 h2
    exact Option.noConfusion h1
  · split at h
    · exact Option.noConfusion h
    · injection h with h'
      injection h' with h1 h2
      rw [← h2]
      split
      · exact ⟨rfl, rfl, rfl, rfl⟩
      · exact ⟨rfl, rfl, rfl, rfl⟩

/-- `deallocate(nullptr)` is a no-op for the ST pool. -/
theorem st_deallocate_zero (st : PoolState) : PoolAllocator.deallocate st 0 = st := by
  simp [PoolAllocator.deallocate]

/-- Count bookkeeping of a non-null ST `deallocate`. -/
theorem st_deallocate_counts (st : PoolState) (p : Nat) (hp : p ≠ 0) :
    (PoolAllocator.deallocate st p).alloc_calls = st.alloc_calls
      ∧ (PoolAllocator.deallocate st p).alloc_failures = st.alloc_failures
      ∧ (PoolAllocator.deallocate st p).free_calls = st.free_calls + 1
      ∧ (PoolAllocator.deallocate st p).in_use = st.in_use - 1 := by
  simp only [PoolAllocator.deallocate, PoolAllocator.quarantinePush_,
    PoolAllocator.freeListPush_, PoolAllocator.applyPoison_, if_neg hp]
  repeat' split
  all_goals exact ⟨rfl, rfl, rfl, rfl⟩

/-- Count bookkeeping of a null-returning lock-free `allocate`. -/
theorem lf_allocate_null_counts {lf lf' : LFState}
    (h : LockFreePoolAllocator.allocate lf = some (none, lf')) :
    lf'.pool.alloc_calls = lf.pool.alloc_calls + 1
      ∧ lf'.pool.alloc_failures = lf.pool.alloc_failures + 1
      ∧ lf'.pool.free_calls = lf.pool.free_calls ∧ lf'.pool.in_use = lf.pool.in_use := by
  simp only [LockFreePoolAllocator.allocate] at h
  split at h
  · injection h with h'
    injection h' with h1 h2
    rw [← h2]
    exact ⟨rfl, rfl, rfl, rfl⟩
  · split at h
    · exact Option.noConfusion h
    · split at h
      · exact Option.noConfusion h
      · injection h with h'
        injection h' with h1 h2
        exact Option.noConfusion h1

/-- Count bookkeeping of a successful lock-free `allocate`. -/
theorem lf_allocate_ok_counts {lf lf' : LFState} {p : Nat}
    (h : LockFreePoolAllocator.allocate lf = some (some p, lf')) :
    lf'.pool.alloc_calls = lf.pool.alloc_calls + 1
      ∧ lf'.pool.alloc_failures = lf.pool.alloc_failures
      ∧ lf'.pool.free_calls = lf.pool.free_calls
      ∧ lf'.pool.in_use = lf.pool.in_use + 1 := by
  simp only [LockFreePoolAllocator.allocate] at h
  split at h
  · injection h with h'
    injection h' with h1 h2
    exact Option.noConfusion h1
  · split at h
    · exact Option.noConfusion h
    · split at h
      · exact Option.noConfusion h
      · injection h with h'
        injection h' with h1 h2
        rw [← h2]
        split
        · exact ⟨rfl, rfl, rfl, rfl⟩
        · exact ⟨rfl, rfl, rfl, rfl⟩

/-- `deallocate(nullptr)` is a no-op for the lock-free pool. -/
theorem lf_deallocate_zero (lf : LFState) : LockFreePoolAllocator.deallocate lf 0 = some lf := by
  simp [LockFreePoolAllocator.deallocate]

/-- Count bookkeeping of a non-null, non-fatal lock-free `deallocate`. -/
theorem lf_deallocate_counts {lf lf' : LFState} {p : Nat} (hp : p ≠ 0)
    (h : LockFreePoolAllocator.deallocate lf p = some lf') :
    lf'.pool.alloc_calls = lf.pool.alloc_calls
      ∧ lf'.pool.alloc_failures = lf.pool.alloc_failures
      ∧ lf'.pool.free_calls = lf.pool.free_calls + 1
      ∧ lf'.pool.in_use = lf.pool.in_use - 1 := by
  simp only [LockFreePoolAllocator.deallocate, LockFreePoolAllocator.lfFreeListPush_,
    PoolAllocator.applyPoison_, if_neg hp] at h
  split at h
  · exact Option.noConfusion h
  · repeat' split at h
    all_goals
      injection h with h'
    all_goals
      rw [← h']
    all_goals exact ⟨rfl, rfl, rfl, rfl⟩

/-- The metrics identity is preserved along every valid ST-pool run. -/
theorem stRun_counts {st : PoolState} {h : List Nat} {ops : List PoolOp}
    (hv : ValidFrom st h ops) :
    st.in_use = h.length →
    st.alloc_calls = st.alloc_failures + st.free_calls + st.in_use →
    ∀ rs stf, stRun st ops = some (rs, stf) →
      stf.alloc_calls = stf.alloc_failures + stf.free_calls + stf.in_use := by
  induction hv with
  | nil st h =>
    intro hu hc rs stf hrun
    simp only [stRun] at hrun
    injection hrun with h'
    injection h' with h1 h2
    rw [← h2]
    exact hc
  | alloc_fatal st h ops hfat =>
    intro hu hc rs stf hrun
    simp only [stRun, hfat] at hrun
    exact Option.noConfusion hrun
  | alloc_null st h ops st' heq hv' ih =>
    intro hu hc rs stf hrun
    simp only [stRun, heq] at hrun
    split at hrun
    · exact Option.noConfusion hrun
    · injection hrun with h'
      injection h' with h1 h2
      obtain ⟨c1, c2, c3, c4⟩ := st_allocate_null_counts heq
      rename_i rs' stf' heq2
      rw [← h2]
      exact ih (by omega) (by omega) rs' stf' heq2
  | alloc_ok st h ops p st' heq hv' ih =>
    intro hu hc rs stf hrun
    simp only [stRun, heq] at hrun
    split at hrun
    · exact Option.noConfusion hrun
    · injection hrun with h'
      injection h' with h1 h2
      obtain ⟨c1, c2, c3, c4⟩ := st_allocate_ok_counts heq
      rename_i rs' stf' heq2
      rw [← h2]
      refine ih ?_ (by omega) rs' stf' heq2
      simp only [List.length_cons]
      omega
  | free_null st h ops hv' ih =>
    intro hu hc rs stf hrun
    simp only [stRun, st_deallocate_zero] at hrun
    split at hrun
    · exact Option.noConfusion hrun
    · injection hrun with h'
      injection h' with h1 h2
      rename_i rs' stf' heq2
      rw [← h2]
      exact ih hu hc rs' stf' heq2
  | free_held st h ops p hmem hnz hv' ih =>
    intro hu hc rs stf hrun
    simp only [stRun] at hrun
    split at hrun
    · exact Option.noConfusion hrun
    · injection hrun with h'
      injection h' with h1 h2
      obtain ⟨c1, c2, c3, c4⟩ := st_deallocate_counts st p hnz
      have hlen : (h.erase p).length = h.length - 1 := List.length_erase_of_mem hmem
      have hpos : 0 < h.length := List.length_pos_of_mem hmem
      rename_i rs' stf' heq2
      rw [← h2]
      exact ih (by omega) (by omega) rs' stf' heq2

/-- The metrics identity is preserved along every valid lock-free run. -/
theorem lfRun_counts {lf : LFState} {h : List Nat} {ops : List PoolOp}
    (hv : LFValidFrom lf h ops) :
    lf.pool.in_use = h.length →
    lf.pool.alloc_calls = lf.pool.alloc_failures + lf.pool.free_calls + lf.pool.in_use →
    ∀ rs lff, lfRun lf ops = some (rs, lff) →
      lff.pool.alloc_calls
        = lff.pool.alloc_failures + lff.pool.free_calls + lff.pool.in_use := by
  induction hv with
  | nil lf h =>
    intro hu hc rs lff hrun
    simp only [lfRun] at hrun
    injection hrun with h'
    injection h' with h1 h2
    rw [← h2]
    exact hc
  | alloc_fatal lf h ops hfat =>
    intro hu hc rs lff hrun
    simp only [lfRun, hfat] at hrun
    exact Option.noConfusion hrun
  | alloc_null lf h ops lf' heq hv' ih =>
    intro hu hc rs lff hrun
    simp only [lfRun, heq] at hrun
    split at hrun
    · exact Option.noConfusion hrun
    · injection hrun with h'
      injection h' with h1 h2
      obtain ⟨c1, c2, c3, c4⟩ := lf_allocate_null_counts heq
      rename_i rs' lff' heq2
      rw [← h2]
      exact ih (by omega) (by omega) rs' lff' heq2
  | alloc_ok lf h ops p lf' heq hv' ih =>
    intro hu hc rs lff hrun
    simp only [lfRun, heq] at hrun
    split at hrun
    · exact Option.noConfusion hrun
    · injection hrun with h'
      injection h' with h1 h2
      obtain ⟨c1, c2, c3, c4⟩ := lf_allocate_ok_counts heq
      rename_i rs' lff' heq2
      rw [← h2]
      refine ih ?_ (by omega) rs' lff' heq2
      simp only [List.length_cons]
      omega
  | free_fatal lf h ops p hfat =>
    intro hu hc rs lff hrun
    simp only [lfRun, hfat] at hrun
    exact Option.noConfusion hrun
  | free_null lf h ops lf' heq hv' ih =>
    intro hu hc rs lff hrun
    have heq0 : lf' = lf := by
      have := lf_deallocate_zero lf
      rw [this] at heq
      injection heq with h''
      exact h''.symm
    subst heq0
    simp only [lfRun, lf_deallocate_zero] at hrun
    split at hrun
    · exact Option.noConfusion hrun
    · injection hrun with h'
      injection h' with h1 h2
      rename_i rs' lff' heq2
      rw [← h2]
      exact ih hu hc rs' lff' heq2
  | free_held lf h ops p lf' hmem hnz heq hv' ih =>
    intro hu hc rs lff hrun
    simp only [lfRun, heq] at hrun
    split at hrun
    · exact Option.noConfusion hrun
    · injection hrun with h'
      injection h' with h1 h2
      obtain ⟨c1, c2, c3, c4⟩ := lf_deallocate_counts hnz heq
      have hlen : (h.erase p).length = h.length - 1 := List.length_erase_of_mem hmem
      have hpos : 0 < h.length := List.length_pos_of_mem hmem
      rename_i rs' lff' heq2
      rw [← h2]
      exact ih (by omega) (by omega) rs' lff' heq2

/-- Claim C5: for every pool (single-threaded or lock-free) and every
sequence of allocate/deallocate calls in which each deallocate argument is
null or a pointer currently held from a successful allocate, at every
quiescent point the metrics satisfy
`alloc_calls - alloc_failures = free_calls + in_use` (stated both in
truncated-subtraction form and in the equivalent additive form). -/
theorem c5_metrics_identity :
    (∀ objectSize capacity options base ops rs stf,
      ValidFrom (poolInit objectSize capacity options base) [] ops →
      stRun (poolInit objectSize capacity options base) ops = some (rs, stf) →
      stf.alloc_calls - stf.alloc_failures = stf.free_calls + stf.in_use
        ∧ stf.alloc_calls = stf.alloc_failures + stf.free_calls + stf.in_use)
    ∧ (∀ objectSize capacity options base ops rs lff,
      LFValidFrom (lfInit objectSize capacity options base) [] ops →
      lfRun (lfInit objectSize capacity options base) ops = some (rs, lff) →
      lff.pool.alloc_calls - lff.pool.alloc_failures
          = lff.pool.free_calls + lff.pool.in_use
        ∧ lff.pool.alloc_calls
          = lff.pool.alloc_failures + lff.pool.free_calls + lff.pool.in_use) := by
  constructor
  · intro objectSize capacity options base ops rs stf hv hrun
    have h := stRun_counts hv rfl rfl rs stf hrun
    exact ⟨by omega, h⟩
  · intro objectSize capacity options base ops rs lff hv hrun
    have h := lfRun_counts hv rfl rfl rs lff hrun
    exact ⟨by omega, h⟩

/-- Witness for C5 on a concrete one-allocation run of a pool with
object_size 64, capacity 2: afterwards alloc_calls = 1, alloc_failures = 0,
free_calls = 0, in_use = 1. -/
theorem c5_witness :
    (1 : Nat) - 0 = 0 + 1 ∧ (1 : Nat) = 0 + 0 + 1 := by
  have happ := c5_metrics_identity.1 64 2 {} 16 [PoolOp.alloc] [some 16]
    { poolInit 64 2 {} 16 with
        alloc_calls := 1, nonAtomicFreeListHead := 80, usedCount := 1,
        in_use := 1, high_watermark := 1 }
    (ValidFrom.alloc_ok _ _ _ 16 _ rfl (ValidFrom.nil _ _)) rfl
  exact happ

/-- Fields of the ST pool state untouched by `applyPoison_`. -/
theorem applyPoison_fields (st : PoolState) (p : Nat) :
    (PoolAllocator.applyPoison_ st p).quarantine = st.quarantine
      ∧ (PoolAllocator.applyPoison_ st p).options_ = st.options_
      ∧ (PoolAllocator.applyPoison_ st p).nonAtomicFreeListHead = st.nonAtomicFreeListHead
      ∧ (PoolAllocator.applyPoison_ st p).link = st.link
      ∧ (PoolAllocator.applyPoison_ st p).memoryBlock = st.memoryBlock
      ∧ (PoolAllocator.applyPoison_ st p).alignedObjSize = st.alignedObjSize
      ∧ (PoolAllocator.applyPoison_ st p).poolCapacity = st.poolCapacity := by
  unfold PoolAllocator.applyPoison_
  split <;> exact ⟨rfl, rfl, rfl, rfl, rfl, rfl, rfl⟩

/-- When the quarantine already holds `quarantine_size` cells, a push drains
the oldest cell to the free list. -/
theorem quarantinePush_full (st : PoolState) (p v : Nat) (rest : List Nat)
    (hq : st.options_.quarantine_size = rest.length + 1)
    (hquar : st.quarantine = v :: rest) :
    PoolAllocator.quarantinePush_ st p
      = PoolAllocator.freeListPush_ { st with quarantine := rest ++ [p] } v := by
  simp only [PoolAllocator.quarantinePush_, hquar, hq]
  rw [if_pos (by simp)]
  rfl

/-- Claim C6: for every pool with quarantine enabled, whenever a deallocate
causes the quarantine length to exceed `Q = quarantine_size`, the oldest
(FIFO) quarantined cell is drained to the free list: the quarantine becomes
its old tail plus the new cell, and the free-list head becomes the drained
oldest cell. Stated for the ST pool and the lock-free pool (single-threaded
interleaving, where the fatal range check must pass), together with the
literal scenario: object_size = 32, capacity = 5, quarantine_size = 4,
DebugStrong, base address 16 — after 5 allocates (cells 16, 48, 80, 112,
144) and 5 frees, the 5th free drains cell 16 to the free list and the next
allocate returns it (non-null). -/
theorem c6_quarantine_drain :
    (∀ (st : PoolState) (p v : Nat) (rest : List Nat),
      st.options_.quarantine_size = rest.length + 1 →
      st.quarantine = v :: rest →
      p ≠ 0 →
      (PoolAllocator.deallocate st p).quarantine = rest ++ [p]
        ∧ (PoolAllocator.deallocate st p).nonAtomicFreeListHead = v
        ∧ (PoolAllocator.deallocate st p).link (st.indexOf v) = st.nonAtomicFreeListHead)
    ∧ (∀ (lf : LFState) (p v : Nat) (rest : List Nat),
      lf.pool.options_.quarantine_size = rest.length + 1 →
      lf.lfQuarantine = v :: rest →
      p ≠ 0 →
      lf.inRange_ p →
      (LockFreePoolAllocator.deallocate lf p).map
          (fun l => (l.lfQuarantine, l.freeListHead)) = some (rest ++ [p], v))
    ∧ ((stRun (poolInit 32 5 (PoolOptions.DebugStrong 4) 16)
          (List.replicate 5 PoolOp.alloc
            ++ [PoolOp.free 16, PoolOp.free 48, PoolOp.free 80,
                PoolOp.free 112, PoolOp.free 144])).map
        (fun r => (r.1, r.2.quarantine, r.2.nonAtomicFreeListHead))
          = some ([some 16, some 48, some 80, some 112, some 144,
                   none, none, none, none, none], [48, 80, 112, 144], 16)
      ∧ (stFinal (poolInit 32 5 (PoolOptions.DebugStrong 4) 16)
          (List.replicate 5 PoolOp.alloc
            ++ [PoolOp.free 16, PoolOp.free 48, PoolOp.free 80,
                PoolOp.free 112, PoolOp.free 144])).bind
          (fun s => (PoolAllocator.allocate s).map Prod.fst) = some (some 16)) := by
  refine ⟨?_, ?_, by constructor <;> rfl⟩
  · intro st p v rest hq hquar hp
    have key : ∀ st' : PoolState, st'.options_ = st.options_ → st'.quarantine = st.quarantine →
        st'.nonAtomicFreeListHead = st.nonAtomicFreeListHead →
        st'.memoryBlock = st.memoryBlock → st'.alignedObjSize = st.alignedObjSize →
        (PoolAllocator.quarantinePush_ st' p).quarantine = rest ++ [p]
          ∧ (PoolAllocator.quarantinePush_ st' p).nonAtomicFreeListHead = v
          ∧ (PoolAllocator.quarantinePush_ st' p).link (st.indexOf v)
              = st.nonAtomicFreeListHead := by
      intro st' ho hqr hh hm ha
      rw [quarantinePush_full st' p v rest (by rw [ho, hq]) (by rw [hqr, hquar])]
      refine ⟨rfl, rfl, ?_⟩
      simp only [PoolAllocator.freeListPush_]
      have hidx : ({ st' with quarantine := rest ++ [p] } : PoolState).indexOf v
          = st.indexOf v := by
        simp [PoolState.indexOf, hm, ha]
      rw [hidx, Function.update_same, hh]
    have hQpos : 0 < st.options_.quarantine_size := by omega
    simp only [PoolAllocator.deallocate, if_neg hp]
    by_cases hpoi : st.options_.poison_on_free
    · obtain ⟨f1, f2, f3, f4, f5, f6, f7⟩ := applyPoison_fields st p
      rw [if_pos hpoi, f2, if_pos hQpos]
      exact key _ f2 f1 f3 f5 f6
    · rw [if_neg hpoi, if_pos hQpos]
      exact key st rfl rfl rfl rfl rfl
  · intro lf p v rest hq hquar hp hrange
    have hlen : lf.pool.options_.quarantine_size < (lf.lfQuarantine ++ [p]).length := by
      simp [hquar, hq]
    simp only [LockFreePoolAllocator.deallocate, LockFreePoolAllocator.lfFreeListPush_,
      PoolAllocator.applyPoison_, if_neg hp, if_neg (not_not_intro hrange)]
    repeat' split
    all_goals simp_all

/-- Witness for the C6 drain property at a concrete full-quarantine state:
quarantine_size 1, quarantine holding cell 16, free list empty; freeing cell
48 drains cell 16 to the free-list head. -/
theorem c6_witness :
    (PoolAllocator.deallocate
        { poolInit 32 2 (PoolOptions.DebugStrong 1) 16 with
            quarantine := [16], nonAtomicFreeListHead := 0 } 48).quarantine = [] ++ [48]
      ∧ (PoolAllocator.deallocate
        { poolInit 32 2 (PoolOptions.DebugStrong 1) 16 with
            quarantine := [16], nonAtomicFreeListHead := 0 } 48).nonAtomicFreeListHead = 16
      ∧ (PoolAllocator.deallocate
        { poolInit 32 2 (PoolOptions.DebugStrong 1) 16 with
            quarantine := [16], nonAtomicFreeListHead := 0 } 48).link
          (PoolState.indexOf
            { poolInit 32 2 (PoolOptions.DebugStrong 1) 16 with
                quarantine := [16], nonAtomicFreeListHead := 0 } 16) = 0 :=
  c6_quarantine_drain.1
    { poolInit 32 2 (PoolOptions.DebugStrong 1) 16 with
        quarantine := [16], nonAtomicFreeListHead := 0 } 48 16 [] rfl rfl (by decide)

/-- Characterization of masking with the high mask `2^64 - 2^k`: it clears
exactly the low `k` bits. -/
theorem land_high_mask (x k : Nat) (hk : k ≤ 64) (hx : x < 2 ^ 64) :
    x &&& (2 ^ 64 - 2 ^ k) = x / 2 ^ k * 2 ^ k := by
  have hmask : (2:Nat) ^ 64 - 2 ^ k = (2 ^ (64 - k) - 1) * 2 ^ k := by
    have h2 : (2:Nat) ^ 64 = 2 ^ (64 - k) * 2 ^ k := by
      rw [← pow_add]
      congr 1
      omega
    rw [h2, Nat.sub_mul, one_mul]
  have hdiv : x / 2 ^ k * 2 ^ k = (x >>> k) <<< k := by
    rw [Nat.shiftRight_eq_div_pow, Nat.shiftLeft_eq]
  rw [hmask, hdiv, show (2 ^ (64 - k) - 1) * 2 ^ k = (2 ^ (64 - k) - 1) <<< k from
    (Nat.shiftLeft_eq _ _).symm]
  apply Nat.eq_of_testBit_eq
  intro i
  rw [Nat.testBit_and, Nat.testBit_shiftLeft, Nat.testBit_shiftLeft,
    Nat.testBit_shiftRight, Nat.testBit_two_pow_sub_one]
  by_cases hki : k ≤ i
  · by_cases hi64 : i < 64
    · have h1 : i - k < 64 - k := by omega
      simp [hki, h1, Nat.add_sub_cancel' hki]
    · have h1 : ¬ (i - k < 64 - k) := by omega
      have h2 : x.testBit i = false :=
        Nat.testBit_lt_two_pow
          (lt_of_lt_of_le hx (Nat.pow_le_pow_right (by norm_num) (by omega)))
      simp [hki, h1, h2, Nat.add_sub_cancel' hki]
  · simp [hki]

/-- For power-of-two alignments and no 64-bit overflow, the bitwise
`align_up` is exactly rounding up to the next multiple, so it lies within one
alignment unit above its argument. -/
theorem align_up_bounds (x k : Nat) (hk : k ≤ 64) (hx : x + (2 ^ k - 1) < 2 ^ 64) :
    x ≤ align_up x (2 ^ k) ∧ align_up x (2 ^ k) ≤ x + (2 ^ k - 1) := by
  have hpos : 0 < (2:Nat) ^ k := pow_pos (by norm_num) k
  have hle : (2:Nat) ^ k ≤ 2 ^ 64 := Nat.pow_le_pow_right (by norm_num) hk
  unfold align_up
  rw [Nat.mod_eq_of_lt hx, show (2 ^ 64 - 1) - (2 ^ k - 1) = 2 ^ 64 - 2 ^ k from by omega,
    land_high_mask _ k hk hx]
  have hmod := Nat.mod_lt (x + (2 ^ k - 1)) hpos
  have hdm := Nat.div_add_mod (x + (2 ^ k - 1)) (2 ^ k)
  rw [Nat.mul_comm] at hdm
  omega

/-- The aligned cell size of a pool is a positive multiple of 16 whenever the
requested object size does not overflow the 64-bit round-up. -/
theorem alignedObjSize_bounds (objectSize : Nat) (hos : objectSize ≤ 2 ^ 64 - 16) :
    let x := if objectSize < ptrBytes then ptrBytes else objectSize
    x ≤ PoolAllocator.alignUp x maxAlignBytes
      ∧ PoolAllocator.alignUp x maxAlignBytes ≤ x + 15
      ∧ 16 ≤ PoolAllocator.alignUp x maxAlignBytes := by
  intro x
  have hx : x + (2 ^ 4 - 1) < 2 ^ 64 := by
    simp only [x, ptrBytes]
    split <;> omega
  have hb := align_up_bounds x 4 (by omega) hx
  have hx8 : ptrBytes ≤ x := by
    simp only [x, ptrBytes]
    split <;> omega
  have heq : PoolAllocator.alignUp x maxAlignBytes = align_up x (2 ^ 4) := rfl
  have hdvd : (2:Nat) ^ 4 ∣ align_up x (2 ^ 4) := align_up_two_pow_dvd x 4 (by omega)
  rw [heq]
  refine ⟨hb.1, by have := hb.2; omega, ?_⟩
  rcases hdvd with ⟨c, hc⟩
  have hc0 : c ≠ 0 := by
    intro h0
    rw [h0, Nat.mul_zero] at hc
    have := hb.1
    simp only [ptrBytes] at hx8
    omega
  rw [hc]
  have : 1 ≤ c := Nat.one_le_iff_ne_zero.mpr hc0
  calc (16:Nat) = 2 ^ 4 * 1 := by norm_num
  _ ≤ 2 ^ 4 * c := by exact Nat.mul_le_mul_left _ this

/-- The constructor's threaded links form a chain from cell `k` through all
remaining cells, for every start index. -/
theorem chain_ctorLink_from (base sz cap : Nat) (hb : 0 < base) (hs : 0 < sz) :
    ∀ n k, k ≤ cap → n = cap - k →
      Chain (ctorLink base sz cap) base sz cap
        (if k < cap then cellAddr base sz k else 0)
        ((List.range n).map (fun j => cellAddr base sz (k + j))) := by
  intro n
  induction n with
  | zero =>
    intro k hk hn
    have : ¬ (k < cap) := by omega
    simp only [this, if_false, List.range_zero, List.map_nil]
    exact Chain.nil
  | succ m ih =>
    intro k hk hn
    have hklt : k < cap := by omega
    simp only [hklt, if_true, List.range_succ_eq_map, List.map_cons, List.map_map]
    have hne : cellAddr base sz k ≠ 0 := by
      simp only [cellAddr]
      omega
    refine Chain.cons _ _ k rfl hklt hne ?_
    have hidx : (cellAddr base sz k - base) / sz = k := by
      simp only [cellAddr, Nat.add_sub_cancel_left]
      exact Nat.mul_div_cancel k hs
    rw [hidx]
    have hlink : ctorLink base sz cap k = if k + 1 < cap then cellAddr base sz (k + 1) else 0 :=
      rfl
    rw [hlink]
    have := ih (k + 1) (by omega) (by omega)
    have hcomp : ((List.range m).map (fun j => cellAddr base sz (k + 1 + j)))
        = (List.range m).map ((fun j => cellAddr base sz (k + j)) ∘ Nat.succ) := by
      apply List.map_congr_left
      intro j hj
      simp only [Function.comp]
      congr 1
      omega
    rw [hcomp] at this
    exact this

/-- The constructor's free list is a chain over exactly the `cap` cells. -/
theorem chain_ctorLink (base sz cap : Nat) (hb : 0 < base) (hs : 0 < sz) (hc : 1 ≤ cap) :
    Chain (ctorLink base sz cap) base sz cap base (cells base sz cap) := by
  have h := chain_ctorLink_from base sz cap hb hs cap 0 (by omega) (by omega)
  have h0 : (0 < cap) := by omega
  simp only [h0, if_true] at h
  have hbase : cellAddr base sz 0 = base := by simp [cellAddr]
  rw [hbase] at h
  have hcells : cells base sz cap = (List.range cap).map (fun j => cellAddr base sz (0 + j)) := by
    unfold cells
    apply List.map_congr_left
    intro j hj
    simp
  rw [hcells]
  exact h

/-- Claim C10: for every `capacity ≥ 1` (and any object size that does not
overflow the 64-bit round-up, with a nonzero malloc base), the constructor's
free-list threading writes links only at the cell starts within
`[base, base + alignedObjSize * capacity)` (each 8-byte write fully inside
the region), and produces a free list of exactly `capacity` cells ending in a
null link with the head at the first cell. `capacity ≥ 1` is required: the
threading loop's bound `capacity - 1` is computed in unsigned arithmetic, so
for `capacity = 0` it wraps to `2^64 - 1` and already the first of those
writes falls outside the (empty) allocated region. -/
theorem c10_ctor_threading :
    (∀ objectSize capacity base, 1 ≤ capacity → 0 < base → objectSize ≤ 2 ^ 64 - 16 →
      ctorLoopBound capacity = capacity - 1
        ∧ (∀ i, i ≤ ctorLoopBound capacity →
            base ≤ ctorWriteAddr base (poolInit objectSize capacity {} base).alignedObjSize i
              ∧ ctorWriteAddr base (poolInit objectSize capacity {} base).alignedObjSize i
                  + ptrBytes
                ≤ base + (poolInit objectSize capacity {} base).alignedObjSize * capacity)
        ∧ (poolInit objectSize capacity {} base).nonAtomicFreeListHead = base
        ∧ Chain (poolInit objectSize capacity {} base).link base
            (poolInit objectSize capacity {} base).alignedObjSize capacity base
            (cells base (poolInit objectSize capacity {} base).alignedObjSize capacity)
        ∧ (cells base (poolInit objectSize capacity {} base).alignedObjSize capacity).length
            = capacity)
      ∧ ctorLoopBound 0 = 2 ^ 64 - 1
      ∧ ¬ (ctorWriteAddr 16 32 0 + ptrBytes ≤ 16 + 32 * 0) := by
  refine ⟨?_, by decide, by decide⟩
  intro objectSize capacity base hcap hbase hos
  have hsz := alignedObjSize_bounds objectSize hos
  simp only at hsz
  obtain ⟨hs1, hs2, hs3⟩ := hsz
  have hszeq : (poolInit objectSize capacity {} base).alignedObjSize
      = PoolAllocator.alignUp (if objectSize < ptrBytes then ptrBytes else objectSize)
          maxAlignBytes := rfl
  have hloop : ctorLoopBound capacity = capacity - 1 := by
    unfold ctorLoopBound
    rw [if_neg (by omega)]
  refine ⟨hloop, ?_, rfl, ?_, by simp [cells]⟩
  · intro i hi
    rw [hloop] at hi
    constructor
    · simp [ctorWriteAddr]
    · simp only [ctorWriteAddr, hszeq]
      have hpb : ptrBytes = 8 := rfl
      set sz := PoolAllocator.alignUp (if objectSize < ptrBytes then ptrBytes else objectSize)
          maxAlignBytes with hszdef
      have h1 : i * sz + sz ≤ capacity * sz := by
        have h2 : i + 1 ≤ capacity := by omega
        calc i * sz + sz = (i + 1) * sz := by ring
        _ ≤ capacity * sz := Nat.mul_le_mul_right sz h2
      have hcm : sz * capacity = capacity * sz := Nat.mul_comm _ _
      omega
  · rw [hszeq]
    have hlink : (poolInit objectSize capacity {} base).link
        = ctorLink base (PoolAllocator.alignUp
            (if objectSize < ptrBytes then ptrBytes else objectSize) maxAlignBytes)
            capacity := rfl
    rw [hlink]
    exact chain_ctorLink base _ capacity hbase (by omega) hcap

/-- Witness for C10 at object size 32, capacity 3, base 16: cell size is 32,
the three link writes land at 16, 48, 80, inside `[16, 112)`, and the chain
is `16 → 48 → 80 → null`. -/
theorem c10_witness :
    ((1 : Nat) ≤ 3 ∧ (0 : Nat) < 16 ∧ (32 : Nat) ≤ 2 ^ 64 - 16)
      ∧ (ctorLoopBound 3 = 3 - 1
        ∧ (∀ i, i ≤ ctorLoopBound 3 →
            16 ≤ ctorWriteAddr 16 (poolInit 32 3 {} 16).alignedObjSize i
              ∧ ctorWriteAddr 16 (poolInit 32 3 {} 16).alignedObjSize i + ptrBytes
                ≤ 16 + (poolInit 32 3 {} 16).alignedObjSize * 3)
        ∧ (poolInit 32 3 {} 16).nonAtomicFreeListHead = 16
        ∧ Chain (poolInit 32 3 {} 16).link 16 (poolInit 32 3 {} 16).alignedObjSize 3 16
            (cells 16 (poolInit 32 3 {} 16).alignedObjSize 3)
        ∧ (cells 16 (poolInit 32 3 {} 16).alignedObjSize 3).length = 3) :=
  ⟨⟨by decide, by decide, by norm_num⟩,
   c10_ctor_threading.1 32 3 16 (by decide) (by decide) (by norm_num)⟩

/-- Chains only depend on the link function at the cells they visit. -/
theorem chain_congr {link link' : Nat → Nat} {base sz cap hd : Nat} {l : List Nat}
    (hch : Chain link base sz cap hd l)
    (hagree : ∀ q ∈ l, link' ((q - base) / sz) = link ((q - base) / sz)) :
    Chain link' base sz cap hd l := by
  induction hch with
  | nil => exact Chain.nil
  | cons p l i hpi hlt hne hch ih =>
    refine Chain.cons p l i hpi hlt hne ?_
    rw [hagree p (List.mem_cons_self p l)]
    exact ih (fun q hq => hagree q (List.mem_cons_of_mem _ hq))

/-- Every chain member is a nonzero in-range cell address. -/
theorem chain_mem_cell {link : Nat → Nat} {base sz cap hd : Nat} {l : List Nat}
    (hch : Chain link base sz cap hd l) :
    ∀ q ∈ l, ∃ j, j < cap ∧ q = cellAddr base sz j ∧ q ≠ 0 := by
  induction hch with
  | nil => intro q hq; exact absurd hq (List.not_mem_nil q)
  | cons p l i hpi hlt hne hch ih =>
    intro q hq
    rcases List.mem_cons.1 hq with rfl | hq'
    · exact ⟨i, hlt, hpi, hne⟩
    · exact ih q hq'

/-- A chain over the empty list starts at null. -/
theorem chain_nil_head {link : Nat → Nat} {base sz cap hd : Nat}
    (hch : Chain link base sz cap hd []) : hd = 0 := by
  cases hch
  rfl

/-- Successful pop: with a nonzero head and a passing (or disabled) poison
check, `allocate` returns the head and only touches the popped cell's link
and poison state (besides counters). -/
theorem st_allocate_pop {st : PoolState} {p : Nat}
    (hhd : st.nonAtomicFreeListHead = p) (hne : p ≠ 0)
    (hver : ¬ (st.options_.verify_poison_on_alloc = true
        ∧ st.options_.poison_on_free = true
        ∧ ptrBytes < st.alignedObjSize
        ∧ st.tailPoison ((p - st.memoryBlock) / st.alignedObjSize) = false)) :
    ∃ st₁, PoolAllocator.allocate st = some (some p, st₁)
      ∧ st₁.nonAtomicFreeListHead = st.link ((p - st.memoryBlock) / st.alignedObjSize)
      ∧ (∀ j, j ≠ (p - st.memoryBlock) / st.alignedObjSize → st₁.link j = st.link j)
      ∧ (∀ j, j ≠ (p - st.memoryBlock) / st.alignedObjSize → st₁.tailPoison j = st.tailPoison j)
      ∧ st₁.quarantine = st.quarantine
      ∧ st₁.options_ = st.options_
      ∧ st₁.memoryBlock = st.memoryBlock
      ∧ st₁.alignedObjSize = st.alignedObjSize
      ∧ st₁.poolCapacity = st.poolCapacity
      ∧ st₁.tailPoison
          = zeroPoison st.options_ st.tailPoison ((p - st.memoryBlock) / st.alignedObjSize) := by
  simp only [PoolAllocator.allocate, PoolState.indexOf]
  rw [hhd]
  rw [if_neg hne]
  split
  · rename_i hcond
    exfalso
    exact hver (by simpa using hcond)
  · refine ⟨_, rfl, ?_, ?_, ?_, ?_, ?_, ?_, ?_, ?_, ?_⟩
    · split <;> rfl
    · intro j hj
      split
      · exact Function.update_noteq hj _ _
      · rfl
    · intro j hj
      split
      · exact Function.update_noteq hj _ _
      · rfl
    · split <;> rfl
    · split <;> rfl
    · split <;> rfl
    · split <;> rfl
    · split <;> rfl
    · split
      · rename_i hzero
        simp [zeroPoison, hzero]
      · rename_i hzero
        simp [zeroPoison, hzero]

/-- Allocate until exhaustion: from a state whose free list chains over `l`,
`l.length` allocates return exactly the cells of `l` in order and leave the
free list empty, without touching the quarantine. -/
theorem stRun_allocAll : ∀ (l : List Nat) (st : PoolState),
    Chain st.link st.memoryBlock st.alignedObjSize st.poolCapacity
      st.nonAtomicFreeListHead l →
    l.Nodup → 0 < st.alignedObjSize →
    (∀ q ∈ l, st.tailPoison ((q - st.memoryBlock) / st.alignedObjSize) = true
        ∨ ¬ (st.options_.verify_poison_on_alloc = true
              ∧ st.options_.poison_on_free = true)) →
    ∃ st', stRun st (List.replicate l.length PoolOp.alloc) = some (l.map some, st')
      ∧ st'.nonAtomicFreeListHead = 0
      ∧ st'.quarantine = st.quarantine
      ∧ st'.options_ = st.options_
      ∧ st'.memoryBlock = st.memoryBlock
      ∧ st'.alignedObjSize = st.alignedObjSize
      ∧ st'.poolCapacity = st.poolCapacity := by
  intro l
  induction l with
  | nil =>
    intro st hch hnd hsz hpo
    exact ⟨st, by simp [stRun], chain_nil_head hch, rfl, rfl, rfl, rfl, rfl⟩
  | cons p rest ih =>
    intro st hch hnd hsz hpo
    generalize hgen : st.nonAtomicFreeListHead = hd at hch
    rcases hch with _ | ⟨_, _, i, hpi, hlt, hne, hch'⟩
    have hver : ¬ (st.options_.verify_poison_on_alloc = true
        ∧ st.options_.poison_on_free = true
        ∧ ptrBytes < st.alignedObjSize
        ∧ st.tailPoison ((p - st.memoryBlock) / st.alignedObjSize) = false) := by
      rcases hpo p (List.mem_cons_self p rest) with hpt | hnv
      · rintro ⟨-, -, -, h4⟩
        rw [hpt] at h4
        exact Bool.noConfusion h4
      · rintro ⟨h1, h2, -, -⟩
        exact hnv ⟨h1, h2⟩
    obtain ⟨st₁, halloc, hhd₁, hlinkeq, hpoiseq, hq₁, ho₁, hm₁, ha₁, hc₁, -⟩ :=
      st_allocate_pop hgen hne hver
    have hidx_ne : ∀ q ∈ rest, (q - st.memoryBlock) / st.alignedObjSize
        ≠ (p - st.memoryBlock) / st.alignedObjSize := by
      intro q hq
      obtain ⟨j, hj, hqj, -⟩ := chain_mem_cell hch' q hq
      have hqp : q ≠ p := by
        intro h
        rw [h] at hq
        exact (List.nodup_cons.1 hnd).1 hq
      have hji : j ≠ i := by
        intro h
        rw [h, ← hpi] at hqj
        exact hqp hqj
      rw [hqj, hpi]
      simp only [cellAddr, Nat.add_sub_cancel_left]
      rw [Nat.mul_div_cancel j hsz, Nat.mul_div_cancel i hsz]
      exact hji
    have hch₁ : Chain st₁.link st₁.memoryBlock st₁.alignedObjSize st₁.poolCapacity
        st₁.nonAtomicFreeListHead rest := by
      rw [hm₁, ha₁, hc₁, hhd₁]
      exact chain_congr hch' (fun q hq => hlinkeq _ (hidx_ne q hq))
    have hpo₁ : ∀ q ∈ rest, st₁.tailPoison ((q - st₁.memoryBlock) / st₁.alignedObjSize) = true
        ∨ ¬ (st₁.options_.verify_poison_on_alloc = true
              ∧ st₁.options_.poison_on_free = true) := by
      intro q hq
      rw [hm₁, ha₁, ho₁, hpoiseq _ (hidx_ne q hq)]
      exact hpo q (List.mem_cons_of_mem _ hq)
    obtain ⟨st', hrun', hhd', hq', ho', hm', ha', hc'⟩ :=
      ih st₁ hch₁ (List.nodup_cons.1 hnd).2 (ha₁ ▸ hsz) hpo₁
    refine ⟨st', ?_, hhd', by rw [hq', hq₁], by rw [ho', ho₁],
      by rw [hm', hm₁], by rw [ha', ha₁], by rw [hc', hc₁]⟩
    simp only [List.length_cons, List.replicate_succ, stRun, halloc, hrun', List.map_cons]

/-- A free with room left in the quarantine appends to it and leaves the
free list untouched. -/
theorem st_deallocate_noDrain {st : PoolState} {p : Nat} (hp : p ≠ 0)
    (hlen : st.quarantine.length + 1 ≤ st.options_.quarantine_size) :
    (PoolAllocator.deallocate st p).quarantine = st.quarantine ++ [p]
      ∧ (PoolAllocator.deallocate st p).nonAtomicFreeListHead = st.nonAtomicFreeListHead
      ∧ (PoolAllocator.deallocate st p).options_ = st.options_
      ∧ (PoolAllocator.deallocate st p).memoryBlock = st.memoryBlock
      ∧ (PoolAllocator.deallocate st p).alignedObjSize = st.alignedObjSize
      ∧ (PoolAllocator.deallocate st p).poolCapacity = st.poolCapacity := by
  have key : ∀ st' : PoolState, st'.options_ = st.options_ →
      st'.quarantine = st.quarantine →
      st'.nonAtomicFreeListHead = st.nonAtomicFreeListHead →
      st'.memoryBlock = st.memoryBlock → st'.alignedObjSize = st.alignedObjSize →
      st'.poolCapacity = st.poolCapacity →
      (PoolAllocator.quarantinePush_ st' p).quarantine = st.quarantine ++ [p]
        ∧ (PoolAllocator.quarantinePush_ st' p).nonAtomicFreeListHead
            = st.nonAtomicFreeListHead
        ∧ (PoolAllocator.quarantinePush_ st' p).options_ = st.options_
        ∧ (PoolAllocator.quarantinePush_ st' p).memoryBlock = st.memoryBlock
        ∧ (PoolAllocator.quarantinePush_ st' p).alignedObjSize = st.alignedObjSize
        ∧ (PoolAllocator.quarantinePush_ st' p).poolCapacity = st.poolCapacity := by
    intro st' ho hqr hh hm ha hc
    simp only [PoolAllocator.quarantinePush_, ho, hqr]
    rw [if_neg (by simp only [List.length_append, List.length_cons, List.length_nil]; omega)]
    exact ⟨rfl, hh, rfl, hm, ha, hc⟩
  have hQpos : 0 < st.options_.quarantine_size := by omega
  simp only [PoolAllocator.deallocate, if_neg hp]
  by_cases hpoi : st.options_.poison_on_free
  · obtain ⟨f1, f2, f3, f4, f5, f6, f7⟩ := applyPoison_fields st p
    rw [if_pos hpoi, f2, if_pos hQpos]
    exact key _ f2 f1 f3 f5 f6 f7
  · rw [if_neg hpoi, if_pos hQpos]
    exact key st rfl rfl rfl rfl rfl rfl

/-- Free a batch of cells into a quarantine with enough room: all of them
end up appended to the quarantine in order, and the free list never changes. -/
theorem stRun_freeAll : ∀ (ps : List Nat) (st : PoolState),
    (∀ q ∈ ps, q ≠ 0) →
    st.quarantine.length + ps.length ≤ st.options_.quarantine_size →
    ∃ st', stRun st (ps.map PoolOp.free) = some (ps.map (fun _ => none), st')
      ∧ st'.nonAtomicFreeListHead = st.nonAtomicFreeListHead
      ∧ st'.quarantine = st.quarantine ++ ps
      ∧ st'.options_ = st.options_ := by
  intro ps
  induction ps with
  | nil =>
    intro st hnz hlen
    exact ⟨st, by simp [stRun], rfl, by simp, rfl⟩
  | cons p rest ih =>
    intro st hnz hlen
    have hp : p ≠ 0 := hnz p (List.mem_cons_self p rest)
    have hlen1 : st.quarantine.length + 1 ≤ st.options_.quarantine_size := by
      simp only [List.length_cons] at hlen
      omega
    obtain ⟨d1, d2, d3, d4, d5, d6⟩ := st_deallocate_noDrain hp hlen1
    obtain ⟨st', hrun', hh', hq', ho'⟩ := ih (PoolAllocator.deallocate st p)
      (fun q hq => hnz q (List.mem_cons_of_mem _ hq))
      (by
        rw [d1, d3, List.length_append, List.length_cons, List.length_nil]
        simp only [List.length_cons] at hlen
        omega)
    refine ⟨st', ?_, by rw [hh', d2], ?_, by rw [ho', d3]⟩
    · simp only [List.map_cons, stRun, hrun']
    · rw [hq', d1, List.append_assoc]
      simp

/-- With an empty free list, `allocate` returns null. -/
theorem st_allocate_empty {st : PoolState} (h : st.nonAtomicFreeListHead = 0) :
    (PoolAllocator.allocate st).map Prod.fst = some none := by
  simp [PoolAllocator.allocate, h]

/-- Cell addresses are pairwise distinct for a positive stride. -/
theorem cells_nodup (base sz cap : Nat) (hs : 0 < sz) : (cells base sz cap).Nodup := by
  unfold cells
  refine List.Nodup.map ?_ (List.nodup_range cap)
  intro i j hij
  simp only [cellAddr] at hij
  have : i * sz = j * sz := by omega
  exact Nat.eq_of_mul_eq_mul_right hs this

/-- There are exactly `cap` cells. -/
theorem cells_length (base sz cap : Nat) : (cells base sz cap).length = cap := by
  simp [cells]

/-- Claim C2: for every PoolAllocator constructed with
`capacity ≤ quarantine_size` (any options, `capacity ≥ 1`, any nonzero malloc
base, no 64-bit overflow of the cell size), the call sequence "allocate every
cell, then deallocate every returned pointer" succeeds cell by cell and
afterwards every cell resides in the quarantine, none has re-entered the free
list (the head is still null), and the next `allocate()` returns null. The
second conjunct is the literal DebugStrong scenario: object_size = 32,
capacity = 4, quarantine_size = 4, base 16 — 4 allocates succeed (cells 16,
48, 80, 112), all 4 are freed into the quarantine, and the next allocate
returns null. -/
theorem c2_quarantine_starvation :
    (∀ objectSize capacity options base,
      1 ≤ capacity → 0 < base → objectSize ≤ 2 ^ 64 - 16 →
      capacity ≤ options.quarantine_size →
      ∃ stA stB,
        stRun (poolInit objectSize capacity options base)
            (List.replicate capacity PoolOp.alloc)
          = some ((cells base (poolInit objectSize capacity options base).alignedObjSize
              capacity).map some, stA)
        ∧ stRun stA ((cells base (poolInit objectSize capacity options base).alignedObjSize
              capacity).map PoolOp.free)
          = some ((cells base (poolInit objectSize capacity options base).alignedObjSize
              capacity).map (fun _ => none), stB)
        ∧ stB.quarantine
            = cells base (poolInit objectSize capacity options base).alignedObjSize capacity
        ∧ stB.nonAtomicFreeListHead = 0
        ∧ (PoolAllocator.allocate stB).map Prod.fst = some none)
    ∧ ((stRun (poolInit 32 4 (PoolOptions.DebugStrong 4) 16)
          (List.replicate 4 PoolOp.alloc
            ++ [PoolOp.free 16, PoolOp.free 48, PoolOp.free 80, PoolOp.free 112])).map
        (fun r => (r.1, r.2.quarantine, r.2.nonAtomicFreeListHead))
          = some ([some 16, some 48, some 80, some 112, none, none, none, none],
              [16, 48, 80, 112], 0)
      ∧ (stFinal (poolInit 32 4 (PoolOptions.DebugStrong 4) 16)
            (List.replicate 4 PoolOp.alloc
              ++ [PoolOp.free 16, PoolOp.free 48, PoolOp.free 80, PoolOp.free 112])).bind
          (fun s => (PoolAllocator.allocate s).map Prod.fst) = some none) := by
  refine ⟨?_, by constructor <;> rfl⟩
  intro objectSize capacity options base hcap hbase hos hq
  have hszb := alignedObjSize_bounds objectSize hos
  simp only at hszb
  have hsz : 0 < (poolInit objectSize capacity options base).alignedObjSize := by
    have heq : (poolInit objectSize capacity options base).alignedObjSize
        = PoolAllocator.alignUp (if objectSize < ptrBytes then ptrBytes else objectSize)
            maxAlignBytes := rfl
    rw [heq]
    omega
  have hch : Chain (poolInit objectSize capacity options base).link
      (poolInit objectSize capacity options base).memoryBlock
      (poolInit objectSize capacity options base).alignedObjSize
      (poolInit objectSize capacity options base).poolCapacity
      (poolInit objectSize capacity options base).nonAtomicFreeListHead
      (cells base (poolInit objectSize capacity options base).alignedObjSize capacity) :=
    chain_ctorLink base _ capacity hbase hsz hcap
  have hnd := cells_nodup base (poolInit objectSize capacity options base).alignedObjSize
    capacity hsz
  have hpo : ∀ q ∈ cells base (poolInit objectSize capacity options base).alignedObjSize
        capacity,
      (poolInit objectSize capacity options base).tailPoison
          ((q - (poolInit objectSize capacity options base).memoryBlock)
            / (poolInit objectSize capacity options base).alignedObjSize) = true
        ∨ ¬ ((poolInit objectSize capacity options base).options_.verify_poison_on_alloc = true
              ∧ (poolInit objectSize capacity options base).options_.poison_on_free = true) := by
    intro q hq
    by_cases hpf : options.poison_on_free = true
    · left
      exact hpf
    · right
      rintro ⟨-, h2⟩
      exact hpf h2
  obtain ⟨stA, hrunA, hhdA, hqA, hoA, hmA, haA, hcA⟩ :=
    stRun_allocAll (cells base (poolInit objectSize capacity options base).alignedObjSize
      capacity) (poolInit objectSize capacity options base) hch hnd hsz hpo
  rw [cells_length] at hrunA
  have hnz : ∀ q ∈ cells base (poolInit objectSize capacity options base).alignedObjSize
      capacity, q ≠ 0 := by
    intro q hq
    obtain ⟨j, -, -, hne⟩ := chain_mem_cell hch q hq
    exact hne
  obtain ⟨stB, hrunB, hhdB, hqB, hoB⟩ :=
    stRun_freeAll (cells base (poolInit objectSize capacity options base).alignedObjSize
      capacity) stA hnz
      (by
        rw [hqA, hoA]
        have h0 : (poolInit objectSize capacity options base).quarantine = [] := rfl
        have ho : (poolInit objectSize capacity options base).options_ = options := rfl
        rw [h0, ho, cells_length]
        simpa using hq)
  have hqstA : stA.quarantine = [] := by
    rw [hqA]
    rfl
  refine ⟨stA, stB, hrunA, hrunB, ?_, by rw [hhdB, hhdA], st_allocate_empty (by rw [hhdB, hhdA])⟩
  rw [hqB, hqstA]
  simp

/-- Witness for C2 at the DebugStrong scenario parameters. -/
theorem c2_witness :
    ∃ stA stB,
      stRun (poolInit 32 4 (PoolOptions.DebugStrong 4) 16)
          (List.replicate 4 PoolOp.alloc)
        = some ((cells 16 (poolInit 32 4 (PoolOptions.DebugStrong 4) 16).alignedObjSize
            4).map some, stA)
      ∧ stRun stA ((cells 16 (poolInit 32 4 (PoolOptions.DebugStrong 4) 16).alignedObjSize
            4).map PoolOp.free)
        = some ((cells 16 (poolInit 32 4 (PoolOptions.DebugStrong 4) 16).alignedObjSize
            4).map (fun _ => none), stB)
      ∧ stB.quarantine
          = cells 16 (poolInit 32 4 (PoolOptions.DebugStrong 4) 16).alignedObjSize 4
      ∧ stB.nonAtomicFreeListHead = 0
      ∧ (PoolAllocator.allocate stB).map Prod.fst = some none :=
  c2_quarantine_starvation.1 32 4 (PoolOptions.DebugStrong 4) 16
    (by decide) (by decide) (by norm_num) (by decide)

/-- Index arithmetic: recovering a cell's index from its address. -/
theorem cellAddr_idx (base sz i : Nat) (hs : 0 < sz) :
    (cellAddr base sz i - base) / sz = i := by
  simp only [cellAddr, Nat.add_sub_cancel_left]
  exact Nat.mul_div_cancel i hs

/-- Membership in the cell list, unfolded. -/
theorem mem_cells_iff {q base sz cap : Nat} :
    q ∈ cells base sz cap ↔ ∃ i, i < cap ∧ q = cellAddr base sz i := by
  simp only [cells, List.mem_map, List.mem_range]
  constructor
  · rintro ⟨i, hi, rfl⟩
    exact ⟨i, hi, rfl⟩
  · rintro ⟨i, hi, rfl⟩
    exact ⟨i, hi, rfl⟩

/-- Every cell address passes the lock-free range check. -/
theorem inRange_of_mem_cells {lf : LFState} {p : Nat} (hs : 0 < lf.pool.alignedObjSize)
    (hmem : p ∈ cells lf.pool.memoryBlock lf.pool.alignedObjSize lf.pool.poolCapacity) :
    lf.inRange_ p := by
  obtain ⟨i, hi, rfl⟩ := mem_cells_iff.1 hmem
  refine ⟨by simp [cellAddr], ?_, ?_⟩
  · simp only [cellAddr]
    have h1 : i * lf.pool.alignedObjSize + lf.pool.alignedObjSize
        ≤ lf.pool.poolCapacity * lf.pool.alignedObjSize := by
      calc i * lf.pool.alignedObjSize + lf.pool.alignedObjSize
          = (i + 1) * lf.pool.alignedObjSize := by ring
      _ ≤ lf.pool.poolCapacity * lf.pool.alignedObjSize :=
          Nat.mul_le_mul_right _ (by omega)
    have hcm : lf.pool.poolCapacity * lf.pool.alignedObjSize
        = lf.pool.alignedObjSize * lf.pool.poolCapacity := Nat.mul_comm _ _
    omega
  · simp only [cellAddr, Nat.add_sub_cancel_left]
    exact Nat.mul_mod_left i _

/-- ST allocate with an empty free list, full form. -/
theorem st_allocate_nullfull {st : PoolState} (h : st.nonAtomicFreeListHead = 0) :
    PoolAllocator.allocate st
      = some (none, { st with
          alloc_calls := st.alloc_calls + 1,
          alloc_failures := st.alloc_failures + 1 }) := by
  simp [PoolAllocator.allocate, h]

/-- Lock-free allocate with an empty free list, full form. -/
theorem lf_allocate_nullfull {lf : LFState} (h : lf.freeListHead = 0) :
    LockFreePoolAllocator.allocate lf
      = some (none, { lf with pool := { lf.pool with
              alloc_calls := lf.pool.alloc_calls + 1,
              alloc_failures := lf.pool.alloc_failures + 1 } }) := by
  simp [LockFreePoolAllocator.allocate, h]

/-- ST allocate aborts when the poison verification fails. -/
theorem st_allocate_fatal {st : PoolState} {p : Nat}
    (hhd : st.nonAtomicFreeListHead = p) (hne : p ≠ 0)
    (hver : st.options_.verify_poison_on_alloc = true ∧ st.options_.poison_on_free = true
        ∧ ptrBytes < st.alignedObjSize
        ∧ st.tailPoison ((p - st.memoryBlock) / st.alignedObjSize) = false) :
    PoolAllocator.allocate st = none := by
  simp only [PoolAllocator.allocate, PoolState.indexOf]
  rw [hhd, if_neg hne]
  split
  · rfl
  · rename_i hncond
    exact absurd (by simpa using hver) hncond

/-- Lock-free allocate aborts when the poison verification fails. -/
theorem lf_allocate_fatal {lf : LFState} {p : Nat}
    (hhd : lf.freeListHead = p) (hne : p ≠ 0) (hrange : lf.inRange_ p)
    (hver : lf.pool.options_.verify_poison_on_alloc = true
        ∧ lf.pool.options_.poison_on_free = true
        ∧ ptrBytes < lf.pool.alignedObjSize
        ∧ lf.pool.tailPoison ((p - lf.pool.memoryBlock) / lf.pool.alignedObjSize) = false) :
    LockFreePoolAllocator.allocate lf = none := by
  simp only [LockFreePoolAllocator.allocate, PoolState.indexOf]
  rw [hhd, if_neg hne, if_neg (not_not_intro hrange)]
  split
  · rfl
  · rename_i hncond
    exact absurd (by simpa using hver) hncond

/-- Lock-free pop, mirror of `st_allocate_pop`. -/
theorem lf_allocate_pop {lf : LFState} {p : Nat}
    (hhd : lf.freeListHead = p) (hne : p ≠ 0) (hrange : lf.inRange_ p)
    (hver : ¬ (lf.pool.options_.verify_poison_on_alloc = true
        ∧ lf.pool.options_.poison_on_free = true
        ∧ ptrBytes < lf.pool.alignedObjSize
        ∧ lf.pool.tailPoison ((p - lf.pool.memoryBlock) / lf.pool.alignedObjSize) = false)) :
    ∃ lf₁, LockFreePoolAllocator.allocate lf = some (some p, lf₁)
      ∧ lf₁.freeListHead = lf.next_ ((p - lf.pool.memoryBlock) / lf.pool.alignedObjSize)
      ∧ lf₁.next_ = lf.next_
      ∧ lf₁.lfQuarantine = lf.lfQuarantine
      ∧ lf₁.pool.options_ = lf.pool.options_
      ∧ lf₁.pool.memoryBlock = lf.pool.memoryBlock
      ∧ lf₁.pool.alignedObjSize = lf.pool.alignedObjSize
      ∧ lf₁.pool.poolCapacity = lf.pool.poolCapacity
      ∧ lf₁.pool.tailPoison
          = zeroPoison lf.pool.options_ lf.pool.tailPoison
              ((p - lf.pool.memoryBlock) / lf.pool.alignedObjSize) := by
  simp only [LockFreePoolAllocator.allocate, PoolState.indexOf]
  rw [hhd, if_neg hne, if_neg (not_not_intro hrange)]
  split
  · rename_i hcond
    exfalso
    exact hver (by simpa using hcond)
  · refine ⟨_, rfl, ?_, ?_, ?_, ?_, ?_, ?_, ?_, ?_⟩
    · split <;> rfl
    · split <;> rfl
    · split <;> rfl
    · split <;> rfl
    · split <;> rfl
    · split <;> rfl
    · split <;> rfl
    · split
      · rename_i hzero
        simp [zeroPoison, hzero]
      · rename_i hzero
        simp [zeroPoison, hzero]

/-- Pointwise congruence of `Function.update`. -/
theorem update_congr {f g : Nat → Bool} (h : ∀ i, f i = g i) (a : Nat) (b : Bool) (i : Nat) :
    Function.update f a b i = Function.update g a b i := by
  rw [Function.update_apply, Function.update_apply]
  split
  · rfl
  · exact h i

/-- Pointwise congruence of the zero-on-alloc poison transform. -/
theorem zeroPoison_congr {o : PoolOptions} {f g : Nat → Bool} (h : ∀ i, f i = g i)
    (idx i : Nat) : zeroPoison o f idx i = zeroPoison o g idx i := by
  unfold zeroPoison
  split
  · exact update_congr h idx _ i
  · exact h i

/-- Pointwise congruence of the poison-on-free transform. -/
theorem poisonApply_congr {o : PoolOptions} {sz : Nat} {f g : Nat → Bool}
    (h : ∀ i, f i = g i) (idx i : Nat) :
    poisonApply o sz f idx i = poisonApply o sz g idx i := by
  unfold poisonApply
  split
  · exact update_congr h idx true i
  · exact h i

/-- The head of a chain is the first listed pointer (null for the empty
chain). -/
theorem chain_head {link : Nat → Nat} {base sz cap hd : Nat} {l : List Nat}
    (hch : Chain link base sz cap hd l) : hd = l.headD 0 := by
  cases hch with
  | nil => rfl
  | cons p l i hpi hlt hne hch => rfl

/-- Inversion of a chain over a nonempty list. -/
theorem chain_cons_elim {link : Nat → Nat} {base sz cap hd q : Nat} {l : List Nat}
    (hch : Chain link base sz cap hd (q :: l)) :
    hd = q ∧ Chain link base sz cap (link ((q - base) / sz)) l := by
  cases hch with
  | cons p l i hpi hlt hne hch => exact ⟨rfl, hch⟩

/-- Updating the link at the cell index of a pointer outside the chain leaves
every link the chain reads unchanged. -/
theorem update_link_agree {link : Nat → Nat} {base sz cap hd : Nat} {l : List Nat} {p w : Nat}
    (hs : 0 < sz) (hch : Chain link base sz cap hd l)
    (hpcell : ∃ i, i < cap ∧ p = cellAddr base sz i) (hpl : p ∉ l) :
    ∀ r ∈ l, Function.update link ((p - base) / sz) w ((r - base) / sz)
      = link ((r - base) / sz) := by
  intro r hr
  obtain ⟨j, hj, hrj, -⟩ := chain_mem_cell hch r hr
  obtain ⟨i, hi, hpi⟩ := hpcell
  apply Function.update_noteq
  rw [hrj, hpi, cellAddr_idx _ _ _ hs, cellAddr_idx _ _ _ hs]
  intro hji
  apply hpl
  have hrp : r = p := by rw [hrj, hpi, hji]
  rwa [← hrp]

/-- Inversion: a fatal ST allocate means a nonzero head whose poison
verification fails. -/
theorem st_allocate_none_inv {st : PoolState} (h : PoolAllocator.allocate st = none) :
    st.nonAtomicFreeListHead ≠ 0
    ∧ (st.options_.verify_poison_on_alloc = true ∧ st.options_.poison_on_free = true
        ∧ ptrBytes < st.alignedObjSize
        ∧ st.tailPoison ((st.nonAtomicFreeListHead - st.memoryBlock) / st.alignedObjSize)
            = false) := by
  by_cases hhd : st.nonAtomicFreeListHead = 0
  · rw [st_allocate_nullfull hhd] at h
    exact Option.noConfusion h
  · refine ⟨hhd, ?_⟩
    by_contra hver
    obtain ⟨st₁, heq, -⟩ := st_allocate_pop rfl hhd hver
    rw [heq] at h
    exact Option.noConfusion h

/-- Inversion: an ST allocate that returns null started from an empty free
list, and only the counters changed. -/
theorem st_allocate_null_inv {st st' : PoolState}
    (h : PoolAllocator.allocate st = some (none, st')) :
    st.nonAtomicFreeListHead = 0
    ∧ st' = { st with
        alloc_calls := st.alloc_calls + 1,
        alloc_failures := st.alloc_failures + 1 } := by
  by_cases hhd : st.nonAtomicFreeListHead = 0
  · refine ⟨hhd, ?_⟩
    rw [st_allocate_nullfull hhd] at h
    injection h with h1
    exact (congrArg Prod.snd h1).symm
  · exfalso
    by_cases hver : st.options_.verify_poison_on_alloc = true
        ∧ st.options_.poison_on_free = true
        ∧ ptrBytes < st.alignedObjSize
        ∧ st.tailPoison ((st.nonAtomicFreeListHead - st.memoryBlock) / st.alignedObjSize)
            = false
    · rw [st_allocate_fatal rfl hhd hver] at h
      exact Option.noConfusion h
    · obtain ⟨st₁, heq, -⟩ := st_allocate_pop rfl hhd hver
      rw [heq] at h
      injection h with h1
      exact Option.noConfusion (congrArg Prod.fst h1)

/-- Inversion: an ST allocate that returns a pointer pops exactly the head. -/
theorem st_allocate_some_inv {st st' : PoolState} {p : Nat}
    (h : PoolAllocator.allocate st = some (some p, st')) :
    st.nonAtomicFreeListHead = p ∧ p ≠ 0
    ∧ ¬ (st.options_.verify_poison_on_alloc = true ∧ st.options_.poison_on_free = true
        ∧ ptrBytes < st.alignedObjSize
        ∧ st.tailPoison ((p - st.memoryBlock) / st.alignedObjSize) = false) := by
  by_cases hhd : st.nonAtomicFreeListHead = 0
  · rw [st_allocate_nullfull hhd] at h
    injection h with h1
    exact Option.noConfusion (congrArg Prod.fst h1)
  · by_cases hver : st.options_.verify_poison_on_alloc = true
        ∧ st.options_.poison_on_free = true
        ∧ ptrBytes < st.alignedObjSize
        ∧ st.tailPoison ((st.nonAtomicFreeListHead - st.memoryBlock) / st.alignedObjSize)
            = false
    · rw [st_allocate_fatal rfl hhd hver] at h
      exact Option.noConfusion h
    · obtain ⟨st₁, heq, -⟩ := st_allocate_pop rfl hhd hver
      rw [heq] at h
      injection h with h1
      have hp : st.nonAtomicFreeListHead = p := by
        have := congrArg Prod.fst h1
        simpa using this
      refine ⟨hp, by rw [← hp]; exact hhd, by rw [← hp]; exact hver⟩

/-- Step equation: `stRun` after a successful allocate. -/
theorem stRun_step_alloc_ok {st st' : PoolState} {p : Nat} {ops : List PoolOp}
    (h : PoolAllocator.allocate st = some (some p, st')) :
    stRun st (PoolOp.alloc :: ops)
      = (stRun st' ops).map (fun r => (some p :: r.1, r.2)) := by
  simp only [stRun, h]
  cases stRun st' ops with
  | none => rfl
  | some x => rfl

/-- Step equation: `stRun` after a null allocate. -/
theorem stRun_step_alloc_null {st st' : PoolState} {ops : List PoolOp}
    (h : PoolAllocator.allocate st = some (none, st')) :
    stRun st (PoolOp.alloc :: ops)
      = (stRun st' ops).map (fun r => ((none : Option Nat) :: r.1, r.2)) := by
  simp only [stRun, h]
  cases stRun st' ops with
  | none => rfl
  | some x => rfl

/-- Step equation: `stRun` after a fatal allocate. -/
theorem stRun_step_alloc_fatal {st : PoolState} {ops : List PoolOp}
    (h : PoolAllocator.allocate st = none) :
    stRun st (PoolOp.alloc :: ops) = none := by
  simp only [stRun, h]

/-- Step equation: `stRun` across a deallocate. -/
theorem stRun_step_free {st : PoolState} {p : Nat} {ops : List PoolOp} :
    stRun st (PoolOp.free p :: ops)
      = (stRun (PoolAllocator.deallocate st p) ops).map
          (fun r => ((none : Option Nat) :: r.1, r.2)) := by
  simp only [stRun]
  cases stRun (PoolAllocator.deallocate st p) ops with
  | none => rfl
  | some x => rfl

/-- Step equation: `lfRun` after a successful allocate. -/
theorem lfRun_step_alloc_ok {lf lf' : LFState} {p : Nat} {ops : List PoolOp}
    (h : LockFreePoolAllocator.allocate lf = some (some p, lf')) :
    lfRun lf (PoolOp.alloc :: ops)
      = (lfRun lf' ops).map (fun r => (some p :: r.1, r.2)) := by
  simp only [lfRun, h]
  cases lfRun lf' ops with
  | none => rfl
  | some x => rfl

/-- Step equation: `lfRun` after a null allocate. -/
theorem lfRun_step_alloc_null {lf lf' : LFState} {ops : List PoolOp}
    (h : LockFreePoolAllocator.allocate lf = some (none, lf')) :
    lfRun lf (PoolOp.alloc :: ops)
      = (lfRun lf' ops).map (fun r => ((none : Option Nat) :: r.1, r.2)) := by
  simp only [lfRun, h]
  cases lfRun lf' ops with
  | none => rfl
  | some x => rfl

/-- Step equation: `lfRun` after a fatal allocate. -/
theorem lfRun_step_alloc_fatal {lf : LFState} {ops : List PoolOp}
    (h : LockFreePoolAllocator.allocate lf = none) :
    lfRun lf (PoolOp.alloc :: ops) = none := by
  simp only [lfRun, h]

/-- Step equation: `lfRun` across a non-fatal deallocate. -/
theorem lfRun_step_free {lf lf' : LFState} {p : Nat} {ops : List PoolOp}
    (h : LockFreePoolAllocator.deallocate lf p = some lf') :
    lfRun lf (PoolOp.free p :: ops)
      = (lfRun lf' ops).map (fun r => ((none : Option Nat) :: r.1, r.2)) := by
  simp only [lfRun, h]
  cases lfRun lf' ops with
  | none => rfl
  | some x => rfl

/-- Equal outputs are preserved by prefixing both runs with one more output
entry. -/
theorem map_fst_cons_congr {q : Option Nat} {a : Option (List (Option Nat) × PoolState)}
    {b : Option (List (Option Nat) × LFState)}
    (h : a.map Prod.fst = b.map Prod.fst) :
    (a.map (fun r => (q :: r.1, r.2))).map Prod.fst
      = (b.map (fun r => (q :: r.1, r.2))).map Prod.fst := by
  rw [Option.map_map, Option.map_map]
  show a.map ((fun l => q :: l) ∘ Prod.fst) = b.map ((fun l => q :: l) ∘ Prod.fst)
  rw [← Option.map_map, ← Option.map_map, h]

/-- ST deallocate with quarantine disabled: the cell is pushed directly onto
the free list, and the poison state changes only by the poison-on-free
transform at the freed cell. -/
theorem st_deallocate_direct {st : PoolState} {p : Nat} (hp : p ≠ 0)
    (hQ : st.options_.quarantine_size = 0) :
    (PoolAllocator.deallocate st p).nonAtomicFreeListHead = p
    ∧ (PoolAllocator.deallocate st p).link
        = Function.update st.link ((p - st.memoryBlock) / st.alignedObjSize)
            st.nonAtomicFreeListHead
    ∧ (PoolAllocator.deallocate st p).quarantine = st.quarantine
    ∧ (PoolAllocator.deallocate st p).options_ = st.options_
    ∧ (PoolAllocator.deallocate st p).memoryBlock = st.memoryBlock
    ∧ (PoolAllocator.deallocate st p).alignedObjSize = st.alignedObjSize
    ∧ (PoolAllocator.deallocate st p).poolCapacity = st.poolCapacity
    ∧ (PoolAllocator.deallocate st p).tailPoison
        = poisonApply st.options_ st.alignedObjSize st.tailPoison
            ((p - st.memoryBlock) / st.alignedObjSize) := by
  simp only [PoolAllocator.deallocate, PoolAllocator.freeListPush_,
    PoolAllocator.applyPoison_, PoolState.indexOf, poisonApply, if_neg hp]
  repeat' split
  all_goals first
    | (simp_all; done)
    | (exfalso; simp_all; done)
    | (exfalso; simp_all; omega)
    | (exfalso; omega)
    | (simp_all; omega)

/-- ST deallocate with quarantine enabled and room left: the cell is only
appended to the quarantine; free list and links are untouched. -/
theorem st_deallocate_append {st : PoolState} {p : Nat} (hp : p ≠ 0)
    (hQ : 0 < st.options_.quarantine_size)
    (hlen : st.quarantine.length + 1 ≤ st.options_.quarantine_size) :
    (PoolAllocator.deallocate st p).nonAtomicFreeListHead = st.nonAtomicFreeListHead
    ∧ (PoolAllocator.deallocate st p).link = st.link
    ∧ (PoolAllocator.deallocate st p).quarantine = st.quarantine ++ [p]
    ∧ (PoolAllocator.deallocate st p).options_ = st.options_
    ∧ (PoolAllocator.deallocate st p).memoryBlock = st.memoryBlock
    ∧ (PoolAllocator.deallocate st p).alignedObjSize = st.alignedObjSize
    ∧ (PoolAllocator.deallocate st p).poolCapacity = st.poolCapacity
    ∧ (PoolAllocator.deallocate st p).tailPoison
        = poisonApply st.options_ st.alignedObjSize st.tailPoison
            ((p - st.memoryBlock) / st.alignedObjSize) := by
  cases hq : st.quarantine with
  | nil =>
    rw [hq] at hlen
    simp only [PoolAllocator.deallocate, PoolAllocator.quarantinePush_,
      PoolAllocator.freeListPush_, PoolAllocator.applyPoison_, PoolState.indexOf,
      poisonApply, hq, List.nil_append, apply_ite PoolState.quarantine, ite_self,
      if_neg hp]
    repeat' split
    all_goals first
      | (simp_all; done)
      | (exfalso; simp_all; done)
      | (exfalso; simp_all; omega)
      | (exfalso; omega)
      | (simp_all; omega)
  | cons q0 qs =>
    rw [hq] at hlen
    simp only [PoolAllocator.deallocate, PoolAllocator.quarantinePush_,
      PoolAllocator.freeListPush_, PoolAllocator.applyPoison_, PoolState.indexOf,
      poisonApply, hq, List.cons_append, apply_ite PoolState.quarantine, ite_self,
      if_neg hp]
    repeat' split
    all_goals first
      | (simp_all; done)
      | (exfalso; simp_all; done)
      | (exfalso; simp_all; omega)
      | (exfalso; omega)
      | (simp_all; omega)

/-- ST deallocate with a full quarantine: the new cell is appended, the
oldest quarantined cell is drained and pushed onto the free list. -/
theorem st_deallocate_drain {st : PoolState} {p v : Nat} {rest : List Nat} (hp : p ≠ 0)
    (hQ : 0 < st.options_.quarantine_size) (hquar : st.quarantine = v :: rest)
    (hlen : st.options_.quarantine_size ≤ st.quarantine.length) :
    (PoolAllocator.deallocate st p).nonAtomicFreeListHead = v
    ∧ (PoolAllocator.deallocate st p).link
        = Function.update st.link ((v - st.memoryBlock) / st.alignedObjSize)
            st.nonAtomicFreeListHead
    ∧ (PoolAllocator.deallocate st p).quarantine = rest ++ [p]
    ∧ (PoolAllocator.deallocate st p).options_ = st.options_
    ∧ (PoolAllocator.deallocate st p).memoryBlock = st.memoryBlock
    ∧ (PoolAllocator.deallocate st p).alignedObjSize = st.alignedObjSize
    ∧ (PoolAllocator.deallocate st p).poolCapacity = st.poolCapacity
    ∧ (PoolAllocator.deallocate st p).tailPoison
        = poisonApply st.options_ st.alignedObjSize st.tailPoison
            ((p - st.memoryBlock) / st.alignedObjSize) := by
  simp only [PoolAllocator.deallocate, PoolAllocator.quarantinePush_,
    PoolAllocator.freeListPush_, PoolAllocator.applyPoison_, PoolState.indexOf,
    poisonApply, hquar, List.cons_append, if_neg hp]
  repeat' split
  all_goals first
    | (simp_all; done)
    | (exfalso; simp_all; done)
    | (exfalso; simp_all; omega)
    | (exfalso; omega)
    | (simp_all; omega)

/-- Lock-free deallocate with quarantine disabled, mirror of
`st_deallocate_direct`: side-array push of the freed cell. -/
theorem lf_deallocate_direct {lf : LFState} {p : Nat} (hp : p ≠ 0) (hrange : lf.inRange_ p)
    (hQ : lf.pool.options_.quarantine_size = 0) :
    (LockFreePoolAllocator.deallocate lf p).map
        (fun l => (l.freeListHead, l.next_, l.lfQuarantine, l.pool.options_,
          l.pool.memoryBlock, l.pool.alignedObjSize, l.pool.poolCapacity, l.pool.tailPoison))
      = some (p,
          Function.update lf.next_ ((p - lf.pool.memoryBlock) / lf.pool.alignedObjSize)
            lf.freeListHead,
          lf.lfQuarantine, lf.pool.options_, lf.pool.memoryBlock, lf.pool.alignedObjSize,
          lf.pool.poolCapacity,
          poisonApply lf.pool.options_ lf.pool.alignedObjSize lf.pool.tailPoison
            ((p - lf.pool.memoryBlock) / lf.pool.alignedObjSize)) := by
  simp only [LockFreePoolAllocator.deallocate, LockFreePoolAllocator.lfFreeListPush_,
    PoolAllocator.applyPoison_, PoolState.indexOf, poisonApply,
    if_neg hp, if_neg (not_not_intro hrange)]
  repeat' split
  all_goals first
    | (simp_all; done)
    | (exfalso; simp_all; done)
    | (exfalso; simp_all; omega)
    | (exfalso; omega)
    | (simp_all; omega)

/-- Lock-free deallocate with quarantine enabled and room left, mirror of
`st_deallocate_append`. -/
theorem lf_deallocate_append {lf : LFState} {p : Nat} (hp : p ≠ 0) (hrange : lf.inRange_ p)
    (hQ : 0 < lf.pool.options_.quarantine_size)
    (hlen : lf.lfQuarantine.length + 1 ≤ lf.pool.options_.quarantine_size) :
    (LockFreePoolAllocator.deallocate lf p).map
        (fun l => (l.freeListHead, l.next_, l.lfQuarantine, l.pool.options_,
          l.pool.memoryBlock, l.pool.alignedObjSize, l.pool.poolCapacity, l.pool.tailPoison))
      = some (lf.freeListHead, lf.next_, lf.lfQuarantine ++ [p], lf.pool.options_,
          lf.pool.memoryBlock, lf.pool.alignedObjSize, lf.pool.poolCapacity,
          poisonApply lf.pool.options_ lf.pool.alignedObjSize lf.pool.tailPoison
            ((p - lf.pool.memoryBlock) / lf.pool.alignedObjSize)) := by
  cases hq : lf.lfQuarantine with
  | nil =>
    rw [hq] at hlen
    simp only [LockFreePoolAllocator.deallocate, LockFreePoolAllocator.lfFreeListPush_,
      PoolAllocator.applyPoison_, PoolState.indexOf, poisonApply, hq, List.nil_append,
      apply_ite LFState.lfQuarantine, ite_self,
      if_neg hp, if_neg (not_not_intro hrange)]
    repeat' split
    all_goals first
      | (simp_all; done)
      | (exfalso; simp_all; done)
      | (exfalso; simp_all; omega)
      | (exfalso; omega)
      | (simp_all; omega)
  | cons q0 qs =>
    rw [hq] at hlen
    simp only [LockFreePoolAllocator.deallocate, LockFreePoolAllocator.lfFreeListPush_,
      PoolAllocator.applyPoison_, PoolState.indexOf, poisonApply, hq, List.cons_append,
      apply_ite LFState.lfQuarantine, ite_self,
      if_neg hp, if_neg (not_not_intro hrange)]
    repeat' split
    all_goals first
      | (simp_all; done)
      | (exfalso; simp_all; done)
      | (exfalso; simp_all; omega)
      | (exfalso; omega)
      | (simp_all; omega)

/-- Lock-free deallocate with a full quarantine, mirror of
`st_deallocate_drain`. -/
theorem lf_deallocate_drain {lf : LFState} {p v : Nat} {rest : List Nat} (hp : p ≠ 0)
    (hrange : lf.inRange_ p) (hQ : 0 < lf.pool.options_.quarantine_size)
    (hquar : lf.lfQuarantine = v :: rest)
    (hlen : lf.pool.options_.quarantine_size ≤ lf.lfQuarantine.length) :
    (LockFreePoolAllocator.deallocate lf p).map
        (fun l => (l.freeListHead, l.next_, l.lfQuarantine, l.pool.options_,
          l.pool.memoryBlock, l.pool.alignedObjSize, l.pool.poolCapacity, l.pool.tailPoison))
      = some (v,
          Function.update lf.next_ ((v - lf.pool.memoryBlock) / lf.pool.alignedObjSize)
            lf.freeListHead,
          rest ++ [p], lf.pool.options_, lf.pool.memoryBlock, lf.pool.alignedObjSize,
          lf.pool.poolCapacity,
          poisonApply lf.pool.options_ lf.pool.alignedObjSize lf.pool.tailPoison
            ((p - lf.pool.memoryBlock) / lf.pool.alignedObjSize)) := by
  simp only [LockFreePoolAllocator.deallocate, LockFreePoolAllocator.lfFreeListPush_,
    PoolAllocator.applyPoison_, PoolState.indexOf, poisonApply, hquar, List.cons_append,
    if_neg hp, if_neg (not_not_intro hrange)]
  repeat' split
  all_goals first
    | (simp_all; done)
    | (exfalso; simp_all; done)
    | (exfalso; simp_all; omega)
    | (exfalso; omega)
    | (simp_all; omega)

/-- The fatal poison-verification condition transfers between related
states. -/
theorem simInv_vcond_iff {st : PoolState} {lf : LFState} {held : List Nat} {p : Nat}
    (hinv : SimInv st lf held) :
    (lf.pool.options_.verify_poison_on_alloc = true ∧ lf.pool.options_.poison_on_free = true
      ∧ ptrBytes < lf.pool.alignedObjSize
      ∧ lf.pool.tailPoison ((p - lf.pool.memoryBlock) / lf.pool.alignedObjSize) = false)
    ↔ (st.options_.verify_poison_on_alloc = true ∧ st.options_.poison_on_free = true
      ∧ ptrBytes < st.alignedObjSize
      ∧ st.tailPoison ((p - st.memoryBlock) / st.alignedObjSize) = false) := by
  rw [hinv.opts_eq, hinv.size_eq, hinv.base_eq, hinv.poison_eq]

/-- Every cell of the ST pool passes the lock-free range check of a related
lock-free state. -/
theorem simInv_inRange {st : PoolState} {lf : LFState} {held : List Nat} {p : Nat}
    (hinv : SimInv st lf held)
    (hmem : p ∈ cells st.memoryBlock st.alignedObjSize st.poolCapacity) :
    lf.inRange_ p := by
  apply inRange_of_mem_cells
  · rw [hinv.size_eq]
    exact hinv.size_pos
  · rw [hinv.base_eq, hinv.size_eq, hinv.cap_eq]
    exact hmem

/-- Links read by a chain are unchanged by any link modification confined to
the cell index of a pointer outside the chain. -/
theorem link_agree_of_nodup {link link' : Nat → Nat} {base sz cap hd : Nat} {l : List Nat}
    {p : Nat} (hs : 0 < sz) (hch : Chain link base sz cap hd l)
    (hpcell : ∃ i, i < cap ∧ p = cellAddr base sz i) (hpl : p ∉ l)
    (hupd : ∀ j, j ≠ (p - base) / sz → link' j = link j) :
    ∀ r ∈ l, link' ((r - base) / sz) = link ((r - base) / sz) := by
  intro r hr
  obtain ⟨j, hj, hrj, -⟩ := chain_mem_cell hch r hr
  obtain ⟨i, hi, hpi⟩ := hpcell
  apply hupd
  rw [hrj, hpi, cellAddr_idx _ _ _ hs, cellAddr_idx _ _ _ hs]
  intro hji
  apply hpl
  have hrp : r = p := by rw [hrj, hpi, hji]
  rwa [← hrp]

/-- A cell address is never null when the pool base is nonzero. -/
theorem cell_ne_zero {base sz cap v : Nat} (hb : 0 < base)
    (hv : ∃ i, i < cap ∧ v = cellAddr base sz i) : v ≠ 0 := by
  obtain ⟨i, hi, hvi⟩ := hv
  rw [hvi]
  simp only [cellAddr]
  omega

/-- Pushing a new cell onto the free list extends the chain by that cell. -/
theorem chain_push {link : Nat → Nat} {base sz cap hd : Nat} {l : List Nat} {v : Nat}
    (hs : 0 < sz) (hch : Chain link base sz cap hd l)
    (hvcell : ∃ i, i < cap ∧ v = cellAddr base sz i) (hvne : v ≠ 0) (hvl : v ∉ l) :
    Chain (Function.update link ((v - base) / sz) hd) base sz cap v (v :: l) := by
  obtain ⟨i, hi, hvi⟩ := hvcell
  refine Chain.cons v l i hvi hi hvne ?_
  rw [Function.update_same]
  exact chain_congr hch (link_agree_of_nodup hs hch ⟨i, hi, hvi⟩ hvl
    (fun j hj => Function.update_noteq hj _ _))

/-- Simulation: from related states, any valid call sequence produces
identical per-call outputs on the ST pool and the lock-free pool. -/
theorem simRun {st : PoolState} {held : List Nat} {ops : List PoolOp}
    (hv : ValidFrom st held ops) :
    ∀ lf : LFState, SimInv st lf held →
      (stRun st ops).map Prod.fst = (lfRun lf ops).map Prod.fst := by
  induction hv with
  | nil st h =>
    intro lf hinv
    rfl
  | alloc_fatal st h ops hfat =>
    intro lf hinv
    obtain ⟨l, hchS, hchL, hperm⟩ := hinv.freelist
    obtain ⟨hne0, hver⟩ := st_allocate_none_inv hfat
    have hheadS := chain_head hchS
    have hheadL := chain_head hchL
    cases l with
    | nil => exact absurd hheadS hne0
    | cons q l' =>
      have hq : st.nonAtomicFreeListHead = q := hheadS
      have hqlf : lf.freeListHead = q := hheadL
      have hqne : q ≠ 0 := by rw [← hq]; exact hne0
      have hqcells : q ∈ cells st.memoryBlock st.alignedObjSize st.poolCapacity :=
        hperm.mem_iff.mp (by simp)
      have hrange : lf.inRange_ q := simInv_inRange hinv hqcells
      rw [hq] at hver
      have hverL := (simInv_vcond_iff hinv).2 hver
      rw [stRun_step_alloc_fatal hfat,
        lfRun_step_alloc_fatal (lf_allocate_fatal hqlf hqne hrange hverL)]
      rfl
  | alloc_null st h ops st' hnull hvrest ih =>
    intro lf hinv
    obtain ⟨l, hchS, hchL, hperm⟩ := hinv.freelist
    obtain ⟨hhd0, hst'⟩ := st_allocate_null_inv hnull
    have hheadS := chain_head hchS
    have hheadL := chain_head hchL
    cases l with
    | cons q l' =>
      exfalso
      obtain ⟨i, hi, hqi, hqne⟩ := chain_mem_cell hchS q (List.mem_cons_self q l')
      exact hqne (hheadS.symm.trans hhd0)
    | nil =>
      have hlf0 : lf.freeListHead = 0 := hheadL
      rw [stRun_step_alloc_null hnull, lfRun_step_alloc_null (lf_allocate_nullfull hlf0)]
      apply map_fst_cons_congr
      apply ih
      subst hst'
      refine ⟨hinv.base_eq, hinv.size_eq, hinv.cap_eq, hinv.opts_eq, hinv.poison_eq,
        hinv.quar_eq, hinv.base_pos, hinv.size_pos, ⟨[], ?_, ?_, hperm⟩⟩
      · show Chain st.link st.memoryBlock st.alignedObjSize st.poolCapacity
          st.nonAtomicFreeListHead []
        rw [hhd0]
        exact Chain.nil
      · show Chain lf.next_ st.memoryBlock st.alignedObjSize st.poolCapacity
          lf.freeListHead []
        rw [hlf0]
        exact Chain.nil
  | alloc_ok st h ops p st' hst hvrest ih =>
    intro lf hinv
    obtain ⟨l, hchS, hchL, hperm⟩ := hinv.freelist
    obtain ⟨hhd, hpne, hver⟩ := st_allocate_some_inv hst
    have hheadS := chain_head hchS
    have hheadL := chain_head hchL
    cases l with
    | nil => exact absurd (hhd.symm.trans hheadS) hpne
    | cons q l' =>
      have hqp : q = p := by
        rw [hheadS] at hhd
        exact hhd
      subst hqp
      have hlfhd : lf.freeListHead = q := hheadL
      have hpcells : q ∈ cells st.memoryBlock st.alignedObjSize st.poolCapacity :=
        hperm.mem_iff.mp (by simp)
      have hrange : lf.inRange_ q := simInv_inRange hinv hpcells
      have hverL : ¬ (lf.pool.options_.verify_poison_on_alloc = true
          ∧ lf.pool.options_.poison_on_free = true
          ∧ ptrBytes < lf.pool.alignedObjSize
          ∧ lf.pool.tailPoison ((q - lf.pool.memoryBlock) / lf.pool.alignedObjSize)
              = false) :=
        fun hL => hver ((simInv_vcond_iff hinv).1 hL)
      obtain ⟨lf₁, hlfeq, hl1hd, hl1next, hl1q, hl1opts, hl1mem, hl1sz, hl1cap, hl1tp⟩ :=
        lf_allocate_pop hlfhd hpne hrange hverL
      obtain ⟨st₁, hsteq, A2, A3, A4, A5, A6, A7, A8, A9, A10⟩ :=
        st_allocate_pop hhd hpne hver
      have hst1 : st₁ = st' := by
        rw [hsteq] at hst
        injection hst with h1
        exact congrArg Prod.snd h1
      subst hst1
      rw [stRun_step_alloc_ok hst, lfRun_step_alloc_ok hlfeq]
      apply map_fst_cons_congr
      apply ih
      have hnodup : ((q :: l') ++ st.quarantine ++ h).Nodup :=
        hperm.nodup_iff.mpr (cells_nodup _ _ _ hinv.size_pos)
      have hql' : q ∉ l' := by
        have h1 := (List.nodup_append.mp (List.nodup_append.mp hnodup).1).1
        exact (List.nodup_cons.mp h1).1
      refine ⟨?_, ?_, ?_, ?_, ?_, ?_, ?_, ?_, ⟨l', ?_, ?_, ?_⟩⟩
      · rw [hl1mem, A7]
        exact hinv.base_eq
      · rw [hl1sz, A8]
        exact hinv.size_eq
      · rw [hl1cap, A9]
        exact hinv.cap_eq
      · rw [hl1opts, A6]
        exact hinv.opts_eq
      · intro i
        rw [hl1tp, A10, hinv.base_eq, hinv.size_eq, hinv.opts_eq]
        exact zeroPoison_congr hinv.poison_eq _ i
      · rw [hl1q, A5]
        exact hinv.quar_eq
      · rw [A7]
        exact hinv.base_pos
      · rw [A8]
        exact hinv.size_pos
      · rw [A7, A8, A9, A2]
        obtain ⟨-, htail⟩ := chain_cons_elim hchS
        refine chain_congr htail ?_
        exact link_agree_of_nodup hinv.size_pos htail
          (by obtain ⟨i, hi, hqi⟩ := mem_cells_iff.1 hpcells; exact ⟨i, hi, hqi⟩)
          hql' A3
      · rw [A7, A8, A9, hl1next, hl1hd, hinv.base_eq, hinv.size_eq]
        obtain ⟨-, htailL⟩ := chain_cons_elim hchL
        exact htailL
      · rw [A5, A7, A8, A9]
        have hperm' := hperm
        simp only [List.cons_append] at hperm'
        exact List.perm_middle.trans hperm'
  | free_null st h ops hvrest ih =>
    intro lf hinv
    rw [stRun_step_free, lfRun_step_free (lf_deallocate_zero lf)]
    apply map_fst_cons_congr
    apply ih
    rw [st_deallocate_zero]
    exact hinv
  | free_held st h ops p hmem hpne hvrest ih =>
    intro lf hinv
    obtain ⟨l, hchS, hchL, hperm⟩ := hinv.freelist
    have hnodup : (l ++ st.quarantine ++ h).Nodup :=
      hperm.nodup_iff.mpr (cells_nodup _ _ _ hinv.size_pos)
    have hdisj := (List.nodup_append.mp hnodup).2.2
    have hpl : p ∉ l :=
      fun hin => List.disjoint_left.mp hdisj (List.mem_append_left _ hin) hmem
    have hpcells : p ∈ cells st.memoryBlock st.alignedObjSize st.poolCapacity :=
      hperm.mem_iff.mp (by simp [hmem])
    have hpcell : ∃ i, i < st.poolCapacity
        ∧ p = cellAddr st.memoryBlock st.alignedObjSize i := by
      obtain ⟨i, hi, hpi⟩ := mem_cells_iff.1 hpcells
      exact ⟨i, hi, hpi⟩
    have hrange : lf.inRange_ p := simInv_inRange hinv hpcells
    have hh : h.Perm (p :: h.erase p) := List.perm_cons_erase hmem
    by_cases hQ0 : st.options_.quarantine_size = 0
    · obtain ⟨B1, B2, B3, B4, B5, B6, B7, B8⟩ := st_deallocate_direct hpne hQ0
      have hQ0L : lf.pool.options_.quarantine_size = 0 := by
        rw [hinv.opts_eq]
        exact hQ0
      have hlfchar := lf_deallocate_direct hpne hrange hQ0L
      cases hld : LockFreePoolAllocator.deallocate lf p with
      | none =>
        rw [hld] at hlfchar
        exact Option.noConfusion hlfchar
      | some lf₁ =>
        rw [hld] at hlfchar
        simp only [Option.map_some', Option.some.injEq, Prod.mk.injEq] at hlfchar
        obtain ⟨C1, C2, C3, C4, C5, C6, C7, C8⟩ := hlfchar
        rw [stRun_step_free, lfRun_step_free hld]
        apply map_fst_cons_congr
        apply ih
        refine ⟨?_, ?_, ?_, ?_, ?_, ?_, ?_, ?_, ⟨p :: l, ?_, ?_, ?_⟩⟩
        · rw [C5, B5]
          exact hinv.base_eq
        · rw [C6, B6]
          exact hinv.size_eq
        · rw [C7, B7]
          exact hinv.cap_eq
        · rw [C4, B4]
          exact hinv.opts_eq
        · intro i
          rw [C8, B8, hinv.opts_eq, hinv.size_eq, hinv.base_eq]
          exact poisonApply_congr hinv.poison_eq _ i
        · rw [C3, B3]
          exact hinv.quar_eq
        · rw [B5]
          exact hinv.base_pos
        · rw [B6]
          exact hinv.size_pos
        · rw [B5, B6, B7, B1, B2]
          exact chain_push hinv.size_pos hchS hpcell hpne hpl
        · rw [B5, B6, B7, C1, C2, hinv.base_eq, hinv.size_eq]
          exact chain_push hinv.size_pos hchL hpcell hpne hpl
        · rw [B3, B5, B6, B7]
          simp only [List.cons_append]
          exact ((List.Perm.append_left _ hh).trans List.perm_middle).symm.trans hperm
    · have hQpos : 0 < st.options_.quarantine_size := Nat.pos_of_ne_zero hQ0
      by_cases hfits : st.quarantine.length + 1 ≤ st.options_.quarantine_size
      · obtain ⟨B1, B2, B3, B4, B5, B6, B7, B8⟩ := st_deallocate_append hpne hQpos hfits
        have hQposL : 0 < lf.pool.options_.quarantine_size := by
          rw [hinv.opts_eq]
          exact hQpos
        have hfitsL : lf.lfQuarantine.length + 1 ≤ lf.pool.options_.quarantine_size := by
          rw [hinv.quar_eq, hinv.opts_eq]
          exact hfits
        have hlfchar := lf_deallocate_append hpne hrange hQposL hfitsL
        cases hld : LockFreePoolAllocator.deallocate lf p with
        | none =>
          rw [hld] at hlfchar
          exact Option.noConfusion hlfchar
        | some lf₁ =>
          rw [hld] at hlfchar
          simp only [Option.map_some', Option.some.injEq, Prod.mk.injEq] at hlfchar
          obtain ⟨C1, C2, C3, C4, C5, C6, C7, C8⟩ := hlfchar
          rw [stRun_step_free, lfRun_step_free hld]
          apply map_fst_cons_congr
          apply ih
          refine ⟨?_, ?_, ?_, ?_, ?_, ?_, ?_, ?_, ⟨l, ?_, ?_, ?_⟩⟩
          · rw [C5, B5]
            exact hinv.base_eq
          · rw [C6, B6]
            exact hinv.size_eq
          · rw [C7, B7]
            exact hinv.cap_eq
          · rw [C4, B4]
            exact hinv.opts_eq
          · intro i
            rw [C8, B8, hinv.opts_eq, hinv.size_eq, hinv.base_eq]
            exact poisonApply_congr hinv.poison_eq _ i
          · rw [C3, B3, hinv.quar_eq]
          · rw [B5]
            exact hinv.base_pos
          · rw [B6]
            exact hinv.size_pos
          · rw [B5, B6, B7, B1, B2]
            exact hchS
          · rw [B5, B6, B7, C1, C2]
            exact hchL
          · rw [B3, B5, B6, B7]
            simp only [List.append_assoc, List.singleton_append]
            have hperm2 : (l ++ (st.quarantine ++ h)).Perm
                (cells st.memoryBlock st.alignedObjSize st.poolCapacity) := by
              rw [← List.append_assoc]
              exact hperm
            exact (List.Perm.append_left l
              (List.Perm.append_left st.quarantine hh.symm)).trans hperm2
      · have hfull : st.options_.quarantine_size ≤ st.quarantine.length := by omega
        cases hqq : st.quarantine with
        | nil =>
          exfalso
          rw [hqq] at hfull
          simp at hfull
          omega
        | cons v rest =>
          obtain ⟨B1, B2, B3, B4, B5, B6, B7, B8⟩ :=
            st_deallocate_drain hpne hQpos hqq hfull
          have hQposL : 0 < lf.pool.options_.quarantine_size := by
            rw [hinv.opts_eq]
            exact hQpos
          have hqqL : lf.lfQuarantine = v :: rest := by
            rw [hinv.quar_eq]
            exact hqq
          have hfullL : lf.pool.options_.quarantine_size ≤ lf.lfQuarantine.length := by
            rw [hinv.quar_eq, hinv.opts_eq]
            exact hfull
          have hlfchar := lf_deallocate_drain hpne hrange hQposL hqqL hfullL
          have hvq : v ∈ st.quarantine := by
            rw [hqq]
            exact List.mem_cons_self v rest
          have hvcells : v ∈ cells st.memoryBlock st.alignedObjSize st.poolCapacity :=
            hperm.mem_iff.mp (by simp [hvq])
          have hvcell : ∃ i, i < st.poolCapacity
              ∧ v = cellAddr st.memoryBlock st.alignedObjSize i := by
            obtain ⟨i, hi, hvi⟩ := mem_cells_iff.1 hvcells
            exact ⟨i, hi, hvi⟩
          have hvne : v ≠ 0 := cell_ne_zero hinv.base_pos hvcell
          have hvl : v ∉ l := by
            have hnq := (List.nodup_append.mp (List.nodup_append.mp hnodup).1).2.2
            exact fun hin => List.disjoint_left.mp hnq hin hvq
          cases hld : LockFreePoolAllocator.deallocate lf p with
          | none =>
            rw [hld] at hlfchar
            exact Option.noConfusion hlfchar
          | some lf₁ =>
            rw [hld] at hlfchar
            simp only [Option.map_some', Option.some.injEq, Prod.mk.injEq] at hlfchar
            obtain ⟨C1, C2, C3, C4, C5, C6, C7, C8⟩ := hlfchar
            rw [stRun_step_free, lfRun_step_free hld]
            apply map_fst_cons_congr
            apply ih
            refine ⟨?_, ?_, ?_, ?_, ?_, ?_, ?_, ?_, ⟨v :: l, ?_, ?_, ?_⟩⟩
            · rw [C5, B5]
              exact hinv.base_eq
            · rw [C6, B6]
              exact hinv.size_eq
            · rw [C7, B7]
              exact hinv.cap_eq
            · rw [C4, B4]
              exact hinv.opts_eq
            · intro i
              rw [C8, B8, hinv.opts_eq, hinv.size_eq, hinv.base_eq]
              exact poisonApply_congr hinv.poison_eq _ i
            · rw [C3, B3]
            · rw [B5]
              exact hinv.base_pos
            · rw [B6]
              exact hinv.size_pos
            · rw [B5, B6, B7, B1, B2]
              exact chain_push hinv.size_pos hchS hvcell hvne hvl
            · rw [B5, B6, B7, C1, C2, hinv.base_eq, hinv.size_eq]
              exact chain_push hinv.size_pos hchL hvcell hvne hvl
            · rw [B3, B5, B6, B7]
              simp only [List.cons_append, List.append_assoc, List.singleton_append]
              have hperm2 : (l ++ (v :: (rest ++ h))).Perm
                  (cells st.memoryBlock st.alignedObjSize st.poolCapacity) := by
                have hp2 := hperm
                rw [hqq] at hp2
                simpa [List.append_assoc] using hp2
              exact ((List.Perm.cons v (List.Perm.append_left l
                (List.Perm.append_left rest hh.symm))).trans
                List.perm_middle.symm).trans hperm2

/-- Claim C8: in every single-threaded execution, a `LockFreePoolAllocator`
and a `PoolAllocator` constructed with the same object size, capacity and
options (same malloc base, `capacity ≥ 1`, no 64-bit overflow of the aligned
cell size) return identical results for the same sequence of
allocate/deallocate calls — same pointers and same nulls, call for call —
provided each deallocate argument is null or a pointer currently held from a
successful allocate. -/
theorem c8_st_lf_equivalence (objectSize capacity : Nat) (options : PoolOptions)
    (base : Nat) (ops : List PoolOp) (hb : 0 < base) (hcap : 1 ≤ capacity)
    (hos : objectSize ≤ 2 ^ 64 - 16)
    (hv : ValidFrom (poolInit objectSize capacity options base) [] ops) :
    lfOuts (lfInit objectSize capacity options base) ops
      = stOuts (poolInit objectSize capacity options base) ops := by
  have hs : 0 < (poolInit objectSize capacity options base).alignedObjSize := by
    have hbnd := (alignedObjSize_bounds objectSize hos).2.2
    show 0 < PoolAllocator.alignUp _ maxAlignBytes
    omega
  have hinit : SimInv (poolInit objectSize capacity options base)
      (lfInit objectSize capacity options base) [] := by
    refine ⟨rfl, rfl, rfl, rfl, fun i => rfl, rfl, hb, hs,
      ⟨cells base (poolInit objectSize capacity options base).alignedObjSize capacity,
        ?_, ?_, ?_⟩⟩
    · exact chain_ctorLink base _ capacity hb hs hcap
    · exact chain_ctorLink base _ capacity hb hs hcap
    · simp [poolInit]
  unfold lfOuts stOuts
  exact (simRun hv _ hinit).symm

/-- Witness for C8 at a concrete instance: object size 32, capacity 2,
default options, malloc base 16, and the call sequence
alloc, free 16, alloc. -/
theorem c8_witness :
    lfOuts (lfInit 32 2 {} 16) [PoolOp.alloc, PoolOp.free 16, PoolOp.alloc]
      = stOuts (poolInit 32 2 {} 16) [PoolOp.alloc, PoolOp.free 16, PoolOp.alloc] :=
  c8_st_lf_equivalence 32 2 {} 16 [PoolOp.alloc, PoolOp.free 16, PoolOp.alloc]
    (by decide) (by decide) (by decide)
    (ValidFrom.alloc_ok _ _ _ 16 _ rfl
      (ValidFrom.free_held _ _ _ 16 (List.mem_cons_self 16 []) (by decide)
        (ValidFrom.alloc_ok _ _ _ 16 _ rfl (ValidFrom.nil _ _))))
